import Mathlib

/-!
Verification of the boolean query compiler in `sparsonslab/python-resume`.

The development shallowly embeds the query engine:
  * `resume/query/query.py` — the pyparsing grammar (`Query._create_grammar`),
    the `Query.query` driver and `convert_term_to_type`;
  * `resume/query/objectlistquery.py` — the in-memory `ObjectListQuery` backend
    (covering indexes, `add_objects`, the six `search_*` methods);
  * `query/dictionarydatabase.py` — the older in-memory `DictionaryDataBase`
    backend (inclusive numeric bounds, wildcard-wrapped string search);
  * `pubmed_queries/pubmed_parser.py` and `pubmed_parser/field.py` — the
    PubMed-style pipeline (`_parse_query`, `get_object_set`, `ListField`);
  * `resume/query/sqlquery.py`, `resume/query/sqlitequery.py` and
    `resume/query/FieldSpecification.py` — the SQL renderers.

Python floats are modelled as rationals; `datetime.date` values as the
numeral `y*10000 + m*100 + d`, which orders exactly like the chronological
order for calendar dates.  Machine-level floating point rounding is not
modelled; none of the verified properties depends on it.
-/

deriving instance DecidableEq for Except

/-- The Python type tags used as the third component of a field key
(`str`, `bool`, `int`, `float`, `datetime.datetime`, `list`). -/
inductive PyTy where
  | tstr | tbool | tint | tfloat | tdatetime | tlist
deriving DecidableEq, Repr

/-- Python runtime values that can appear in a covering index or as a
converted query term.  `vdate n` encodes the date `y-m-d` as
`y*10000 + m*100 + d` (chronological order agrees with numeric order). -/
inductive Value where
  | vstr (s : String)
  | vbool (b : Bool)
  | vint (n : Int)
  | vfloat (q : ℚ)
  | vdate (d : Nat)
  | vlist (l : List String)
deriving DecidableEq, Repr

/-- Python `isinstance(value, ty)`.  Note that in Python `bool` is a subclass
of `int`, so a boolean value passes an `isinstance(_, int)` check. -/
def isinstanceV : Value → PyTy → Bool
  | .vstr _, .tstr => true
  | .vbool _, .tbool => true
  | .vint _, .tint => true
  | .vbool _, .tint => true
  | .vfloat _, .tfloat => true
  | .vdate _, .tdatetime => true
  | .vlist _, .tlist => true
  | _, _ => false

/-- Numeric view of a Python value: `bool` and `int` coerce to numbers when
compared with a `float`, mirroring Python arithmetic comparisons. -/
def toRatV : Value → Option ℚ
  | .vint n => some (n : ℚ)
  | .vfloat q => some q
  | .vbool b => some (if b then 1 else 0)
  | _ => none

/-- Python `==` between index entries and converted terms.  Equality between
unrelated types (e.g. `datetime == float`) is `False`, never an error. -/
def pyEq (a b : Value) : Bool :=
  match toRatV a, toRatV b with
  | some x, some y => x == y
  | _, _ =>
    match a, b with
    | .vstr x, .vstr y => x == y
    | .vdate x, .vdate y => x == y
    | .vlist x, .vlist y => x == y
    | _, _ => false

/-- Three-way comparison used for Python `<`, `>`, `<=`, `>=`.  `none` models
the `TypeError` Python raises when ordering unrelated types. -/
def pyCmp (a b : Value) : Option Ordering :=
  match toRatV a, toRatV b with
  | some x, some y => some (if x < y then .lt else if x = y then .eq else .gt)
  | _, _ =>
    match a, b with
    | .vdate x, .vdate y => some (if x < y then .lt else if x = y then .eq else .gt)
    | .vstr x, .vstr y => some (if x < y then .lt else if x = y then .eq else .gt)
    | _, _ => none

/-- Digits of a numeral string accumulated into a natural number. -/
def digitsToNat (cs : List Char) : Nat :=
  cs.foldl (fun acc c => acc * 10 + (c.toNat - '0'.toNat)) 0

/-- Python `s.lower()` (ASCII case folding, written over the character
list so that proofs can evaluate it). -/
def pyLower (s : String) : String := ⟨s.data.map Char.toLower⟩

/-- Python `s.upper()`. -/
def pyUpper (s : String) : String := ⟨s.data.map Char.toUpper⟩

/-- Python `s.split(sep)` for a one-character separator: splitting the
empty string yields `[""]`, and `n` separators yield `n + 1` pieces. -/
def splitChar (sep : Char) : List Char → List (List Char)
  | [] => [[]]
  | c :: rest =>
    match splitChar sep rest with
    | [] => if c == sep then [[], []] else [[c]]
    | h :: t => if c == sep then [] :: h :: t else (c :: h) :: t

/-- Python `s.split(sep)` on strings. -/
def pySplit (sep : Char) (s : String) : List String :=
  (splitChar sep s.data).map (fun l => ⟨l⟩)

/-- Python `s.replace("*", "%")` (a one-character pattern, so a plain
character map). -/
def pyReplaceStarPercent (s : String) : String :=
  ⟨s.data.map (fun c => if c == '*' then '%' else c)⟩

/-- Python `s.strip()` as `float()` applies it: drop leading and trailing
whitespace. -/
def pyStrip (cs : List Char) : List Char :=
  ((cs.dropWhile Char.isWhitespace).reverse.dropWhile Char.isWhitespace).reverse

/-- Python `float(term)` restricted to the character set the query grammar
admits for numeric terms (digits, `.`, `-`, `:`; pyparsing `Word(nums+':.-')`).
Accepts an optional sign followed by digits with at most one decimal point
and at least one digit; anything else (second dot, interior `-`, any `:`)
raises `ValueError`, modelled as `none`.  Exponents, `inf`/`nan` and
underscore separators cannot occur in grammar-produced terms. -/
def parsePyFloat (s : String) : Option ℚ :=
  let cs := pyStrip s.data
  let negAndRest : Bool × List Char :=
    match cs with
    | '-' :: rest => (true, rest)
    | '+' :: rest => (false, rest)
    | rest => (false, rest)
  let neg := negAndRest.1
  let body := negAndRest.2
  let intPart := body.takeWhile Char.isDigit
  let afterInt := body.drop intPart.length
  match afterInt with
  | [] =>
    if intPart.isEmpty then none
    else some (mkRat (if neg then -(digitsToNat intPart : Int)
      else (digitsToNat intPart : Int)) 1)
  | '.' :: fracRest =>
    let fracPart := fracRest.takeWhile Char.isDigit
    let afterFrac := fracRest.drop fracPart.length
    let mag : Nat := digitsToNat intPart * 10 ^ fracPart.length + digitsToNat fracPart
    if afterFrac.isEmpty ∧ ¬(intPart.isEmpty ∧ fracPart.isEmpty) then
      some (mkRat (if neg then -(mag : Int) else (mag : Int)) (10 ^ fracPart.length))
    else none
  | _ => none

/-- Gregorian leap-year predicate, as used by Python `datetime`. -/
def isLeapYear (y : Nat) : Bool :=
  y % 4 == 0 && (y % 100 != 0 || y % 400 == 0)

/-- Number of days in a month, as validated by the `datetime` constructor. -/
def daysInMonth (y m : Nat) : Nat :=
  if m == 2 then (if isLeapYear y then 29 else 28)
  else if m == 4 || m == 6 || m == 9 || m == 11 then 30
  else 31

/-- CPython `_strptime` month pattern `1[0-2]|0[1-9]|[1-9]` followed by a
literal `-`: try the two-digit alternatives first, falling back to one digit
(regex backtracking).  Returns the month and the rest after the `-`. -/
def strpMonth (cs : List Char) : Option (Nat × List Char) :=
  match cs with
  | c1 :: c2 :: '-' :: rest =>
    if c1 == '1' && ('0' ≤ c2 && c2 ≤ '2') then
      some (10 + (c2.toNat - '0'.toNat), rest)
    else if c1 == '0' && ('1' ≤ c2 && c2 ≤ '9') then
      some (c2.toNat - '0'.toNat, rest)
    else none
  | c1 :: '-' :: rest =>
    if '1' ≤ c1 && c1 ≤ '9' then some (c1.toNat - '0'.toNat, rest) else none
  | _ => none

/-- CPython `_strptime` day pattern `3[01]|[12]\d|0[1-9]|[1-9]`, anchored at
the end of the string (the whole input must be consumed). -/
def strpDay (cs : List Char) : Option Nat :=
  match cs with
  | [c1, c2] =>
    if c1 == '3' && (c2 == '0' || c2 == '1') then
      some (30 + (c2.toNat - '0'.toNat))
    else if (c1 == '1' || c1 == '2') && c2.isDigit then
      some ((c1.toNat - '0'.toNat) * 10 + (c2.toNat - '0'.toNat))
    else if c1 == '0' && ('1' ≤ c2 && c2 ≤ '9') then
      some (c2.toNat - '0'.toNat)
    else none
  | [c1] => if '1' ≤ c1 && c1 ≤ '9' then some (c1.toNat - '0'.toNat) else none
  | _ => none

/-- Python `datetime.datetime.strptime(term, "%Y-%m-%d")`: exactly four year
digits, a month and a day per the CPython `_strptime` regexes, the whole
string consumed, then calendar validation by the `datetime` constructor
(`MINYEAR = 1`, day within the month).  Returns the `y*10000 + m*100 + d`
encoding. -/
def strptimeYmd (s : String) : Option Nat :=
  match s.data with
  | y1 :: y2 :: y3 :: y4 :: '-' :: rest =>
    if y1.isDigit && y2.isDigit && y3.isDigit && y4.isDigit then
      let y := digitsToNat [y1, y2, y3, y4]
      match strpMonth rest with
      | some (m, rest2) =>
        match strpDay rest2 with
        | some d =>
          if 1 ≤ y ∧ 1 ≤ d ∧ d ≤ daysInMonth y m then
            some (y * 10000 + m * 100 + d)
          else none
        | none => none
      | none => none
    else none
  | _ => none

/-- A pattern is wildcard-free when it contains neither `*` nor `?`
(character classes `[...]` cannot occur in grammar-produced terms). -/
def wildFree (p : List Char) : Bool :=
  p.all (fun c => !(c == '*' || c == '?'))

/-- The one-or-more-suffix search used for a `*` wildcard: try the
remainder of the pattern against every suffix of the subject. -/
def globStar (f : List Char → Bool) : List Char → Bool
  | [] => f []
  | d :: s => f (d :: s) || globStar f s

/-- Full-anchor glob matching, the semantics of `fnmatch.fnmatch` /
`fnmatch.translate` for patterns built from `*` (any run of characters),
`?` (any one character) and literal characters.  Query terms are drawn from
`Word(alphanums + '*')` or quoted strings, so `[seq]` classes do not arise. -/
def globMatch : List Char → List Char → Bool
  | [], s => s.isEmpty
  | c :: p, s =>
    if c == '*' then globStar (globMatch p) s
    else
      match s with
      | [] => false
      | d :: s => if c == '?' then globMatch p s else c == d && globMatch p s

/-- `re.compile(fnmatch.translate(pattern)).search(s) is not None`:
`fnmatch.translate` anchors only the end of the pattern (with `\Z`), and
`re.search` lets the match begin anywhere, so the pattern may match any
*suffix* of the subject (objectlistquery.py, `search_string`). -/
def globAnyEnd (p s : List Char) : Bool :=
  (List.range (s.length + 1)).any (fun i => globMatch p (s.drop i))

/-- DictionaryDataBase.search_string wraps the search term in wildcards
before calling `fnmatch.fnmatch`: a `*` is prepended unless the term already
starts with one and appended unless it already ends with one.  `none` models
the `IndexError` Python raises on `qterm[0]` for an empty term. -/
def wrapStars (p : List Char) : Option (List Char) :=
  match p with
  | [] => none
  | c :: _ =>
    let front := if c == '*' then p else '*' :: p
    match front.getLast? with
    | none => none
    | some last => some (if last == '*' then front else front ++ ['*'])

/-- AST produced by `Query._create_grammar` / the PubMed grammar.  `sand` and
`sor` hold `tokens[0][0::2]`, i.e. a left-to-right flattened run of operands
at one precedence level; `snot` is the unary NOT. -/
inductive QNode where
  | snot (n : QNode)
  | sand (ops : List QNode)
  | sor (ops : List QNode)
  | sstr (term field : String)
  | snum (comp term field : String)
  | slist (comp term field : String)

/-- Outcome of a pyparsing element: success with remaining input, a
recoverable failure (`ParseException`, alternatives may be tried), or a
fatal failure (`ParseSyntaxException` from an `-` ErrorStop, which aborts
the whole parse). -/
inductive PR (α : Type) where
  | done (a : α) (rest : List Char)
  | back
  | dead
deriving Repr

/-- pyparsing default whitespace characters, skipped before every token. -/
def isWsChar (c : Char) : Bool :=
  c == ' ' || c == '\t' || c == '\n' || c == '\r'

/-- Skip leading whitespace, as every pyparsing terminal does. -/
def skipWs (s : List Char) : List Char := s.dropWhile isWsChar

/-- `Literal(c)`: skip whitespace, then match the single character `c`. -/
def matchChar (c : Char) (s : List Char) : Option (List Char) :=
  match skipWs s with
  | d :: rest => if d == c then some rest else none
  | [] => none

/-- `oneOf`: skip whitespace, then match any one of the given characters. -/
def matchOneOf (cs : List Char) (s : List Char) : Option (Char × List Char) :=
  match skipWs s with
  | d :: rest => if cs.any (· == d) then some (d, rest) else none
  | [] => none

/-- `Word(pred)`: skip whitespace, then take a maximal nonempty run of
characters satisfying `pred`. -/
def matchWord (pred : Char → Bool) (s : List Char) : Option (String × List Char) :=
  let t := skipWs s
  let w := t.takeWhile pred
  if w.isEmpty then none else some (⟨w⟩, t.drop w.length)

/-- `CaselessLiteral(w)`: skip whitespace, match `w` ignoring ASCII case.
No word-boundary check is made, exactly as in pyparsing. -/
def matchCaseless (w : List Char) (s : List Char) : Option (List Char) :=
  let t := skipWs s
  if (t.take w.length).map Char.toLower == w.map Char.toLower ∧
      w.length ≤ t.length then
    some (t.drop w.length)
  else none

/-- `quotedString.setParseAction(removeQuotes)`, restricted to the
double-quoted form without escape sequences (queries in this repository do
not use escapes): a `"`, any run of characters other than `"` or a newline,
and a closing `"`; the quotes are stripped. -/
def matchQuoted (s : List Char) : Option (String × List Char) :=
  match skipWs s with
  | '"' :: rest =>
    let w := rest.takeWhile (fun c => !(c == '"' || c == '\n'))
    match rest.drop w.length with
    | '"' :: rest2 => some (⟨w⟩, rest2)
    | _ => none
  | _ => none

/-- `Literal("[").suppress() - Word(alphas) - Literal("]").suppress()`:
the field part of a leaf.  Failure of the opening `[` is recoverable;
failures after it are fatal (the `-` ErrorStop). -/
def parseFieldPart (s : List Char) : PR String :=
  match matchChar '[' s with
  | none => .back
  | some s1 =>
    match matchWord Char.isAlpha s1 with
    | none => .dead
    | some (f, s2) =>
      match matchChar ']' s2 with
      | none => .dead
      | some s3 => .done f s3

/-- `str_srch | num_srch | lst_srch`.  Each leaf form is
`Group(<first token> - ... - field)`: once the first token of a form has
matched, any later failure is fatal.  The three forms have disjoint first
characters, so `MatchFirst` ordering is observable only through which
failure is fatal. -/
def parseLeaf (s : List Char) : PR QNode :=
  match (matchWord (fun c => c.isAlphanum || c == '*') s).orElse
      (fun _ => matchQuoted s) with
  | some (t, s1) =>
    match parseFieldPart s1 with
    | .done f s2 => .done (.sstr t f) s2
    | _ => .dead
  | none =>
    match matchOneOf ['>', '<', '='] s with
    | some (c, s1) =>
      match matchWord (fun d => d.isDigit || d == ':' || d == '.' || d == '-') s1 with
      | none => .dead
      | some (t, s2) =>
        match parseFieldPart s2 with
        | .done f s3 => .done (.snum c.toString t f) s3
        | _ => .dead
    | none =>
      match matchOneOf ['!', '?'] s with
      | some (c, s1) =>
        match matchWord (fun d => d.isAlphanum || d == ',') s1 with
        | none => .dead
        | some (t, s2) =>
          match parseFieldPart s2 with
          | .done f s3 => .done (.slist c.toString t f) s3
          | _ => .dead
      | none => .back

mutual

/-- `operatorPrecedence` base term: a leaf or a parenthesised expression. -/
def parseAtom (fuel : Nat) (s : List Char) : PR QNode :=
  match fuel with
  | 0 => .back
  | fuel + 1 =>
    match parseLeaf s with
    | .done n r => .done n r
    | .dead => .dead
    | .back =>
      match matchChar '(' s with
      | none => .back
      | some s1 =>
        match parseOr fuel s1 with
        | .done n s2 =>
          match matchChar ')' s2 with
          | some s3 => .done n s3
          | none => .back
        | .back => .back
        | .dead => .dead

/-- NOT level: `Group(not_ + thisExpr) | lastExpr` with right-associative
unary NOT.  If the keyword matches but the operand fails recoverably, the
whole alternative is retried as a bare atom on the original input. -/
def parseNot (fuel : Nat) (s : List Char) : PR QNode :=
  match fuel with
  | 0 => .back
  | fuel + 1 =>
    match matchCaseless ['n', 'o', 't'] s with
    | some s1 =>
      match parseNot fuel s1 with
      | .done n r => .done (.snot n) r
      | .dead => .dead
      | .back => parseAtom fuel s
    | none => parseAtom fuel s

/-- AND level: `Group(lastExpr + OneOrMore(and_ + lastExpr)) | lastExpr`;
a run of two or more operands becomes one flattened `sand` node
(`BinaryOperation` takes `tokens[0][0::2]`). -/
def parseAnd (fuel : Nat) (s : List Char) : PR QNode :=
  match fuel with
  | 0 => .back
  | fuel + 1 =>
    match parseNot fuel s with
    | .done n s1 =>
      match parseAndTail fuel [n] s1 with
      | .done ops s2 =>
        match ops with
        | [single] => .done single s2
        | _ => .done (.sand ops) s2
      | .back => .back
      | .dead => .dead
    | .back => .back
    | .dead => .dead

/-- Iterations of `and_ + lastExpr`.  A recoverable failure after a matched
keyword backtracks to before the keyword and ends the run; a fatal failure
aborts the parse. -/
def parseAndTail (fuel : Nat) (acc : List QNode) (s : List Char) : PR (List QNode) :=
  match fuel with
  | 0 => .done acc s
  | fuel + 1 =>
    match matchCaseless ['a', 'n', 'd'] s with
    | none => .done acc s
    | some s1 =>
      match parseNot fuel s1 with
      | .done n s2 => parseAndTail fuel (acc ++ [n]) s2
      | .back => .done acc s
      | .dead => .dead

/-- OR level, structured exactly like the AND level but one level looser. -/
def parseOr (fuel : Nat) (s : List Char) : PR QNode :=
  match fuel with
  | 0 => .back
  | fuel + 1 =>
    match parseAnd fuel s with
    | .done n s1 =>
      match parseOrTail fuel [n] s1 with
      | .done ops s2 =>
        match ops with
        | [single] => .done single s2
        | _ => .done (.sor ops) s2
      | .back => .back
      | .dead => .dead
    | .back => .back
    | .dead => .dead

/-- Iterations of `or_ + lastExpr` at the OR level. -/
def parseOrTail (fuel : Nat) (acc : List QNode) (s : List Char) : PR (List QNode) :=
  match fuel with
  | 0 => .done acc s
  | fuel + 1 =>
    match matchCaseless ['o', 'r'] s with
    | none => .done acc s
    | some s1 =>
      match parseAnd fuel s1 with
      | .done n s2 => parseOrTail fuel (acc ++ [n]) s2
      | .back => .done acc s
      | .dead => .dead

end

/-- `grammar.parseString(query)` with `parseAll=False`: parse a top-level
OR expression and ignore any trailing input.  The fuel bound exceeds the
recursion depth any input of this length can force. -/
def parseQueryPR (q : String) : PR QNode :=
  parseOr (8 * q.length + 16) q.data

/-- Successful parses only, used by `Query.query`, which maps both
`ParseException` and `ParseSyntaxException` to the same `ValueError`. -/
def parseQuery (q : String) : Option QNode :=
  match parseQueryPR q with
  | .done n _ => some n
  | _ => none

/-- A field key `(full name, abbreviated name, type)` with the names already
lower-cased, as both `ObjectListQuery.__init__` and
`DictionaryDataBase.__init__` store them. -/
structure FieldKey where
  full : String
  abbr : String
  ty : PyTy
deriving DecidableEq, Repr

/-- Python dict assignment `m[k] = v`: replace the value at an existing key
in place, otherwise append the binding at the end (dicts preserve insertion
order). -/
def dinsert {V : Type} (k : Nat) (v : V) : List (Nat × V) → List (Nat × V)
  | [] => [(k, v)]
  | p :: ps => if p.1 == k then (k, v) :: ps else p :: dinsert k v ps

/-- State of an `ObjectListQuery` instance: the lower-cased field keys with
their accessor functions, the identifier-to-object mapping, the covering
indexes and the universal set.  An accessor returning `none` models the
exception `add_objects` swallows when a record lacks the field. -/
structure OLState (Obj : Type) where
  fields : List (FieldKey × (Obj → Option Value))
  data : List (Nat × Obj)
  indexes : List (FieldKey × List (Nat × Value))
  universal : Finset Nat

/-- `ObjectListQuery.__init__(fields)`: lower-case the field names, start
with no data, one empty index per field and an empty universal set. -/
def olInit {Obj : Type} (fields : List (FieldKey × (Obj → Option Value))) : OLState Obj :=
  let lowered := fields.map (fun p =>
    ({ full := pyLower p.1.full, abbr := pyLower p.1.abbr, ty := p.1.ty }, p.2))
  { fields := lowered
    data := []
    indexes := lowered.map (fun p => (p.1, []))
    universal := ∅ }

/-- `self.indexes[k][idx] = value` inside `add_objects`: update the index of
field `k`.  A missing index key would raise `KeyError` in Python, which the
surrounding `except Exception: pass` swallows, so it is a no-op here. -/
def ixsSet (k : FieldKey) (idx : Nat) (v : Value)
    (ixs : List (FieldKey × List (Nat × Value))) : List (FieldKey × List (Nat × Value)) :=
  ixs.map (fun p => if p.1 == k then (p.1, dinsert idx v p.2) else p)

/-- The body of the `add_objects` loop for one object: record the identifier
in the universal set and the data mapping, then index the object under every
field whose accessor succeeds and whose value passes the `isinstance` type
check (failures are silently swallowed). -/
def addOne {Obj : Type} (st : OLState Obj) (idx : Nat) (obj : Obj) : OLState Obj :=
  { fields := st.fields
    data := dinsert idx obj st.data
    universal := insert idx st.universal
    indexes := st.fields.foldl (fun ixs kf =>
      match kf.2 obj with
      | some v => if isinstanceV v kf.1.ty then ixsSet kf.1 idx v ixs else ixs
      | none => ixs) st.indexes }

/-- `ObjectListQuery.add_objects(objects, identifier_foo)`: identifiers are
`len(universal_set) + j` when no identifier function is given, otherwise
`identifier_foo(obj)`. -/
def addObjects {Obj : Type} (st : OLState Obj) (objs : List Obj)
    (idf : Option (Obj → Nat)) : OLState Obj :=
  let i := st.universal.card
  (objs.enum).foldl (fun acc jo =>
    addOne acc (match idf with | none => i + jo.1 | some f => f jo.2) jo.2) st

/-- `ObjectListQuery._match_field` / `DictionaryDataBase._match_field`:
lower-case the queried name and return the first field key whose full or
abbreviated name equals it, else `ValueError`. -/
def olMatchField (fields : List FieldKey) (field : String) : Except String FieldKey :=
  let f := pyLower field
  match fields.find? (fun k => k.full == f || k.abbr == f) with
  | some k => .ok k
  | none => .error ("Field " ++ field ++ " not recognised.")

/-- `self.indexes[k]`: a missing key raises `KeyError`.  In states built by
`olInit`/`addObjects` every field key has an index. -/
def olGetIndex {Obj : Type} (st : OLState Obj) (k : FieldKey) :
    Except String (List (Nat × Value)) :=
  match st.indexes.find? (fun p => p.1 == k) with
  | some p => .ok p.2
  | none => .error "KeyError"

/-- Map each indexed entry to a comparison outcome; `none` for any entry
models the `TypeError` Python raises inside the set comprehension. -/
def optMapPairs (rel : Value → Option Bool) : List (Nat × Value) →
    Option (List (Nat × Bool))
  | [] => some []
  | p :: ps =>
    match rel p.2 with
    | none => none
    | some b => (optMapPairs rel ps).map (fun l => (p.1, b) :: l)

/-- The identifiers whose comparison outcome was true, gathered into a set
(the `set([idx for idx, entry in ... if ...])` comprehension). -/
def filterTrueIds (l : List (Nat × Bool)) : Finset Nat :=
  ((l.filter (fun p => p.2)).map (fun p => p.1)).toFinset

/-- Run one comparison against every entry of a covering index, raising
`TypeError` if any single comparison does. -/
def cmpApply (rel : Value → Option Bool) (m : List (Nat × Value)) :
    Except String (Finset Nat) :=
  match optMapPairs rel m with
  | none => .error "TypeError"
  | some l => .ok (filterTrueIds l)

/-- Term conversion shared verbatim by `ObjectListQuery.search_number` and
`DictionaryDataBase.search_number`: floats for `float`/`int` fields,
`strptime(term, "%Y-%m-%d")` for `datetime` fields, and the corresponding
`ValueError` messages otherwise. -/
def convertNumTerm (ty : PyTy) (field term : String) : Except String Value :=
  if ty == .tfloat || ty == .tint then
    match parsePyFloat term with
    | some q => .ok (.vfloat q)
    | none => .error ("Field " ++ field ++ ": " ++ term ++
        " cannot be converted into a number.")
  else if ty == .tdatetime then
    match strptimeYmd term with
    | some d => .ok (.vdate d)
    | none => .error ("Field " ++ field ++ ": " ++ term ++
        " cannot be converted into a date.")
  else .error ("Field " ++ field ++ " is not a float or integer or datetime.")

/-- `ObjectListQuery.search_string`: resolve the field; for a `str` field
match each indexed value against `re.compile(fnmatch.translate(term)).search`
(end-anchored glob, `globAnyEnd`); for a `bool` field compare each indexed
value with `term.lower() == "t"`. -/
def olSearchString {Obj : Type} (st : OLState Obj) (term field : String) :
    Except String (Finset Nat) :=
  match olMatchField (st.fields.map (fun p => p.1)) field with
  | .error e => .error e
  | .ok k =>
    if k.ty == .tstr then
      match olGetIndex st k with
      | .error e => .error e
      | .ok m =>
        cmpApply (fun v =>
          match v with
          | .vstr s => some (globAnyEnd term.data s.data)
          | _ => none) m
    else if k.ty == .tbool then
      match olGetIndex st k with
      | .error e => .error e
      | .ok m =>
        cmpApply (fun v => some (pyEq v (.vbool (pyLower term == "t")))) m
    else .error ("Field " ++ field ++ " is not a string or bool.")

/-- `ObjectListQuery.comparator_map`: `>` is `operator.gt`, `<` is
`operator.lt`, `=` is `operator.eq` — the strict comparisons. -/
def olComparator (comp : String) (entry qterm : Value) : Option Bool :=
  if comp == ">" then (pyCmp entry qterm).map (fun o => o == Ordering.gt)
  else if comp == "<" then (pyCmp entry qterm).map (fun o => o == Ordering.lt)
  else some (pyEq entry qterm)

/-- `ObjectListQuery.search_number`: resolve the field, convert the term,
reject unknown comparators, then keep the identifiers whose indexed value
satisfies `comparator_map[comp](entry, qterm)`. -/
def olSearchNumber {Obj : Type} (st : OLState Obj) (comp term field : String) :
    Except String (Finset Nat) :=
  match olMatchField (st.fields.map (fun p => p.1)) field with
  | .error e => .error e
  | .ok k =>
    match convertNumTerm k.ty field term with
    | .error e => .error e
    | .ok qterm =>
      if comp == ">" || comp == "<" || comp == "=" then
        match olGetIndex st k with
        | .error e => .error e
        | .ok m => cmpApply (fun v => olComparator comp v qterm) m
      else .error ("Field " ++ field ++ ": " ++ comp ++ " is not a valid comparator.")

/-- `ObjectListQuery.search_list` is unimplemented: it ignores all its
arguments and returns the empty set. -/
def olSearchList {Obj : Type} (_st : OLState Obj) (_comp _term _field : String) :
    Except String (Finset Nat) :=
  .ok (∅ : Finset Nat)

mutual

/-- `evaluate()` of an AST node against an `ObjectListQuery` backend:
leaves dispatch to the matching `search_*` method, `SearchNot` subtracts
from the universal set, `SearchAnd`/`SearchOr` fold intersection/union over
the already-evaluated operand results (`functools.reduce`; reducing an
empty operand list would raise `TypeError`). -/
def evalNode {Obj : Type} (st : OLState Obj) : QNode → Except String (Finset Nat)
  | .snot n =>
    match evalNode st n with
    | .error e => .error e
    | .ok r => .ok (st.universal \ r)
  | .sand ops =>
    match evalNodes st ops with
    | .error e => .error e
    | .ok [] => .error "TypeError"
    | .ok (r :: rs) => .ok (rs.foldl (fun a b => a ∩ b) r)
  | .sor ops =>
    match evalNodes st ops with
    | .error e => .error e
    | .ok [] => .error "TypeError"
    | .ok (r :: rs) => .ok (rs.foldl (fun a b => a ∪ b) r)
  | .sstr term field => olSearchString st term field
  | .snum comp term field => olSearchNumber st comp term field
  | .slist comp term field => olSearchList st comp term field

/-- The operand results of a `SearchAnd`/`SearchOr`, evaluated left to
right; the first error aborts, as the Python list comprehension does. -/
def evalNodes {Obj : Type} (st : OLState Obj) : List QNode → Except String (List (Finset Nat))
  | [] => .ok []
  | n :: ns =>
    match evalNode st n with
    | .error e => .error e
    | .ok r =>
      match evalNodes st ns with
      | .error e => .error e
      | .ok rs => .ok (r :: rs)

end

/-- `Query.query(query)` specialised to the `ObjectListQuery` backend,
returning the identifier set: both `ParseException` and
`ParseSyntaxException` become `ValueError('The query cannot be parsed.')`;
errors raised during evaluation propagate with their own message. -/
def olQueryIds {Obj : Type} (st : OLState Obj) (q : String) : Except String (Finset Nat) :=
  match parseQuery q with
  | none => .error "The query cannot be parsed."
  | some n => evalNode st n

/-- `self.data[idx]` lookup used by `ObjectListQuery.query` to map returned
identifiers back to objects. -/
def olDataLookup {Obj : Type} (st : OLState Obj) (idx : Nat) : Option Obj :=
  (st.data.find? (fun p => p.1 == idx)).map (fun p => p.2)

/-- State of a `DictionaryDataBase` instance (uuid identifiers are
modelled as naturals; only the search methods are embedded). -/
structure DDBState where
  fields : List FieldKey
  indexes : List (FieldKey × List (Nat × Value))
  universal : Finset Nat

/-- `self.indexes[k]` for `DictionaryDataBase`. -/
def ddbGetIndex (st : DDBState) (k : FieldKey) : Except String (List (Nat × Value)) :=
  match st.indexes.find? (fun p => p.1 == k) with
  | some p => .ok p.2
  | none => .error "KeyError"

/-- `DictionaryDataBase.search_number`: same field resolution and term
conversion as `ObjectListQuery`, but the comparisons are inclusive:
`=` is `==`, `>` is `>=`, `<` is `<=`. -/
def ddbSearchNumber (st : DDBState) (comp term field : String) :
    Except String (Finset Nat) :=
  match olMatchField st.fields field with
  | .error e => .error e
  | .ok k =>
    match convertNumTerm k.ty field term with
    | .error e => .error e
    | .ok qterm =>
      if comp == "=" then
        match ddbGetIndex st k with
        | .error e => .error e
        | .ok m => cmpApply (fun v => some (pyEq v qterm)) m
      else if comp == ">" then
        match ddbGetIndex st k with
        | .error e => .error e
        | .ok m => cmpApply (fun v => (pyCmp v qterm).map (fun o => !(o == Ordering.lt))) m
      else if comp == "<" then
        match ddbGetIndex st k with
        | .error e => .error e
        | .ok m => cmpApply (fun v => (pyCmp v qterm).map (fun o => !(o == Ordering.gt))) m
      else .error ("Field " ++ field ++ ": " ++ comp ++ " is not a valid comparator.")

/-- `DictionaryDataBase.search_string`: for a `str` field the term is
wrapped in `*` wildcards and matched with `fnmatch.fnmatch` against the
whole indexed value (an empty term raises `IndexError` at `qterm[0]`);
for a `bool` field as in `ObjectListQuery`. -/
def ddbSearchString (st : DDBState) (term field : String) :
    Except String (Finset Nat) :=
  match olMatchField st.fields field with
  | .error e => .error e
  | .ok k =>
    if k.ty == .tstr then
      match wrapStars term.data with
      | none => .error "IndexError"
      | some pat =>
        match ddbGetIndex st k with
        | .error e => .error e
        | .ok m =>
          cmpApply (fun v =>
            match v with
            | .vstr s => some (globMatch pat s.data)
            | _ => none) m
    else if k.ty == .tbool then
      match ddbGetIndex st k with
      | .error e => .error e
      | .ok m =>
        cmpApply (fun v => some (pyEq v (.vbool (pyLower term == "t")))) m
    else .error ("Field " ++ field ++ " is not a string or bool.")

/-- The single-quote character, kept out of string literals. -/
def sglQuote : String := Char.toString (Char.ofNat 39)

/-- Python `str(t)` for the type objects that can appear in the error
message of `convert_term_to_type`. -/
def pyTyStr : PyTy → String
  | .tstr => "<class " ++ sglQuote ++ "str" ++ sglQuote ++ ">"
  | .tbool => "<class " ++ sglQuote ++ "bool" ++ sglQuote ++ ">"
  | .tint => "<class " ++ sglQuote ++ "int" ++ sglQuote ++ ">"
  | .tfloat => "<class " ++ sglQuote ++ "float" ++ sglQuote ++ ">"
  | .tdatetime => "<class " ++ sglQuote ++ "datetime.datetime" ++ sglQuote ++ ">"
  | .tlist => "<class " ++ sglQuote ++ "list" ++ sglQuote ++ ">"

/-- Embeds `term.lower == "t"` from query.py line 285 (the boolean branch of
`convert_term_to_type`).  The source omits the call parentheses, so the left
operand is the *bound method object* `term.lower`, not the lowered string;
in Python a method object never compares equal to a string, so the
expression evaluates to `False` for every term. -/
def lowerMethodEqT (_term : String) : Bool := false

/-- `convert_term_to_type(field, term, target_type, possible_types)` from
query.py: check the target type is allowed, then convert per type.  The
boolean branch returns `term.lower == "t"` (see `lowerMethodEqT`); the
final `return term` is unreachable for the six modelled types. -/
def convertTermToType (field term : String) (target : PyTy) (possible : List PyTy) :
    Except String Value :=
  if ¬(target ∈ possible) then
    .error ("Field " ++ field ++ " is not a " ++
      String.intercalate "," (possible.map pyTyStr) ++ ".")
  else if target == .tstr then .ok (.vstr term)
  else if target == .tbool then .ok (.vbool (lowerMethodEqT term))
  else if target == .tfloat || target == .tint then
    match parsePyFloat term with
    | some q => .ok (.vfloat q)
    | none => .error ("Field " ++ field ++ ": " ++ term ++
        " cannot be converted into a number.")
  else if target == .tdatetime then
    match strptimeYmd term with
    | some d => .ok (.vdate d)
    | none => .error ("Field " ++ field ++ ": " ++ term ++
        " cannot be converted into a date.")
  else .ok (.vlist (pySplit ',' term))

/-- `FieldSpecification.match`: first field whose lower-cased full or
abbreviated name equals the lower-cased query name, with its stored
accessor value (here: the column name used by `SQLiteQuery`). -/
def fsMatch (fields : List (FieldKey × String)) (field : String) :
    Except String (FieldKey × String) :=
  let f := pyLower field
  match fields.find? (fun p => p.1.full == f || p.1.abbr == f) with
  | some p => .ok p
  | none => .error ("Field " ++ field ++ " not recognised.")

/-- A converted string-search term: `str` fields pass the term through,
`bool` fields get `term.lower() == "t"`. -/
inductive StrOrBool where
  | s (v : String)
  | b (v : Bool)
deriving DecidableEq, Repr

/-- `FieldSpecification.convert_string`: unlike `convert_term_to_type`,
this sibling calls `term.lower()` correctly, so `"T"`/`"t"` convert to
`True` and anything else to `False`. -/
def fsConvertString (fields : List (FieldKey × String)) (field term : String) :
    Except String (FieldKey × String × StrOrBool) :=
  match fsMatch fields field with
  | .error e => .error e
  | .ok (k, v) =>
    if k.ty == .tstr then .ok (k, v, .s term)
    else if k.ty == .tbool then .ok (k, v, .b (pyLower term == "t"))
    else .error ("Field " ++ field ++ " is not string.")

/-- `FieldSpecification.convert_numeric`: floats for `float`/`int` fields,
`strptime` dates for `datetime` fields. -/
def fsConvertNumeric (fields : List (FieldKey × String)) (field term : String) :
    Except String (FieldKey × String × Value) :=
  match fsMatch fields field with
  | .error e => .error e
  | .ok (k, v) =>
    if k.ty == .tfloat || k.ty == .tint then
      match parsePyFloat term with
      | some q => .ok (k, v, .vfloat q)
      | none => .error ("Field " ++ field ++ ": " ++ term ++
          " cannot be converted into a number.")
    else if k.ty == .tdatetime then
      match strptimeYmd term with
      | some d => .ok (k, v, .vdate d)
      | none => .error ("Field " ++ field ++ ": " ++ term ++
          " cannot be converted into a date.")
    else .error ("Field " ++ field ++ " is not numeric.")

/-- `FieldSpecification.convert_list`: split the term on commas. -/
def fsConvertList (fields : List (FieldKey × String)) (field term : String) :
    Except String (FieldKey × String × List String) :=
  match fsMatch fields field with
  | .error e => .error e
  | .ok (k, v) =>
    if k.ty == .tlist then .ok (k, v, pySplit ',' term)
    else .error ("Field " ++ field ++ " is not a list.")

/-- The bracket/quote pairs `balanced` cancels, in source order
(pubmed_parser.py `balanced`). -/
def bracketPairs : List (Char × Char) :=
  [('(', ')'), ('{', '}'), ('[', ']'),
   (Char.ofNat 39, Char.ofNat 39), ('"', '"')]

/-- Keep only bracket and quote characters, as `balanced` does before its
cancellation loop. -/
def bracketOnly (s : List Char) : List Char :=
  s.filter (fun c => bracketPairs.any (fun p => p.1 == c || p.2 == c))

/-- Python `my_string.replace(ab, '')` for a two-character pattern:
left-to-right removal of non-overlapping occurrences. -/
def removePair (a b : Char) : List Char → List Char
  | [] => []
  | [c] => [c]
  | c :: d :: rest =>
    if c == a && d == b then removePair a b rest
    else c :: removePair a b (d :: rest)

/-- Does the two-character pattern occur anywhere (`ab in my_string`)? -/
def hasAdj (a b : Char) : List Char → Bool
  | [] => false
  | [_] => false
  | c :: d :: rest => (c == a && d == b) || hasAdj a b (d :: rest)

/-- The `while any(...): for br in brackets: ... replace(br, '')` loop of
`balanced`.  Every iteration with a pair present removes at least two
characters, so `length + 1` rounds of fuel always suffice. -/
def balancedLoop (fuel : Nat) (s : List Char) : List Char :=
  match fuel with
  | 0 => s
  | fuel + 1 =>
    if bracketPairs.any (fun p => hasAdj p.1 p.2 s) then
      balancedLoop fuel (bracketPairs.foldl (fun t p => removePair p.1 p.2 t) s)
    else s

/-- `balanced(expr)` from pubmed_parser.py: the query is balanced when the
cancellation loop consumes every bracket and quote character. -/
def balanced (expr : String) : Bool :=
  (balancedLoop (expr.length + 1) (bracketOnly expr.data)).isEmpty

mutual

/-- The field names of a query tree in `to_json` traversal order, as
`get_key_values(json, 'field')` collects them in `_parse_query`. -/
def collectFields : QNode → List String
  | .snot n => collectFields n
  | .sand ops => collectFieldsList ops
  | .sor ops => collectFieldsList ops
  | .sstr _ f => [f]
  | .snum _ _ f => [f]
  | .slist _ _ f => [f]

/-- Concatenated field names of a list of operands, left to right. -/
def collectFieldsList : List QNode → List String
  | [] => []
  | n :: ns => collectFields n ++ collectFieldsList ns

end

/-- A pubmed `Field` object as the parser consumes it: names, the universal
set, and the subclass-specific `get_entry_set` behaviour as a function. -/
structure PMField where
  fullName : String
  abbrName : String
  universalSet : Finset Nat
  entrySet : String → String → Finset Nat

/-- `Field.match_field`: full names are stored lower-case and matched
against `name.lower()`, abbreviated names upper-case against
`name.upper()`; `None` when nothing matches. -/
def pmMatchField (fields : List PMField) (name : String) : Option PMField :=
  fields.find? (fun f => f.fullName == pyLower name || f.abbrName == pyUpper name)

/-- `Field.check_field_names`: the queried names that match no field, all
of them, in order of appearance. -/
def checkFieldNames (fields : List PMField) (names : List String) : List String :=
  names.filter (fun n => (pmMatchField fields n).isNone)

/-- `Field.get_field_entry_set`: dispatch to the matched field, or the
empty set when the name matches nothing. -/
def pmGetFieldEntrySet (fields : List PMField) (name value op : String) : Finset Nat :=
  match pmMatchField fields name with
  | some f => f.entrySet value op
  | none => ∅

/-- `PubMedParser._parse_query`: the balance pre-check, the parse (a fatal
pyparsing error yields the message with the trailing period, a recoverable
one the message without it), then exhaustive field validation producing one
error that lists every unknown name. -/
def pmParseQuery (fields : List PMField) (q : String) :
    Except String (List String × QNode) :=
  if ¬ balanced q then .error "Is unbalanced"
  else
    match parseQueryPR q with
    | .done n _ =>
      let names := collectFields n
      let unknown := checkFieldNames fields names
      if unknown.isEmpty then .ok (names, n)
      else .error ("Non-valid fields: " ++ String.intercalate ", " unknown)
    | .dead => .error "Cannot be parsed."
    | .back => .error "Cannot be parsed"

mutual

/-- `evaluate_expression` of the pubmed operator classes: `SearchNot`
subtracts from `fields[0].universal_set` (an `IndexError` when the field
list is empty), `SearchAnd`/`SearchOr` reduce over operand results, leaves
call `Field.get_field_entry_set` (with default operator `=` for strings). -/
def pmEval (fields : List PMField) : QNode → Except String (Finset Nat)
  | .snot n =>
    match fields with
    | [] => .error "IndexError"
    | f :: _ =>
      match pmEval fields n with
      | .error e => .error e
      | .ok r => .ok (f.universalSet \ r)
  | .sand ops =>
    match pmEvalList fields ops with
    | .error e => .error e
    | .ok [] => .error "TypeError"
    | .ok (r :: rs) => .ok (rs.foldl (fun a b => a ∩ b) r)
  | .sor ops =>
    match pmEvalList fields ops with
    | .error e => .error e
    | .ok [] => .error "TypeError"
    | .ok (r :: rs) => .ok (rs.foldl (fun a b => a ∪ b) r)
  | .sstr term field => .ok (pmGetFieldEntrySet fields field term "=")
  | .snum comp term field => .ok (pmGetFieldEntrySet fields field term comp)
  | .slist comp term field => .ok (pmGetFieldEntrySet fields field term comp)

/-- Operand results of a pubmed `SearchAnd`/`SearchOr`, left to right. -/
def pmEvalList (fields : List PMField) : List QNode → Except String (List (Finset Nat))
  | [] => .ok []
  | n :: ns =>
    match pmEval fields n with
    | .error e => .error e
    | .ok r =>
      match pmEvalList fields ns with
      | .error e => .error e
      | .ok rs => .ok (r :: rs)

end

/-- `PubMedParser.get_object_set`: an empty query short-circuits to
`self.fields[0].universal_set` before any parsing; otherwise parse,
validate and evaluate. -/
def pmGetObjectSet (fields : List PMField) (q : String) : Except String (Finset Nat) :=
  if q == "" then
    match fields with
    | [] => .error "IndexError"
    | f :: _ => .ok f.universalSet
  else
    match pmParseQuery fields q with
    | .error e => .error e
    | .ok (_, n) => pmEval fields n

/-- `ListField.get_entry_set` from pubmed field.py: split the comma-
delimited term into a set of strings; `!` keeps entries whose indexed set
equals it, `?` keeps entries of which it is a subset.  Any other operator
falls off the end of the method, returning Python `None`. -/
def listFieldEntrySet (m : List (Nat × Finset String)) (value op : String) :
    Option (Finset Nat) :=
  let vset := (pySplit ',' value).toFinset
  if op == "!" then
    some (((m.filter (fun p => decide (p.2 = vset))).map (fun p => p.1)).toFinset)
  else if op == "?" then
    some (((m.filter (fun p => decide (vset ⊆ p.2))).map (fun p => p.1)).toFinset)
  else none

/-- `SQLQuery._get_field_full_name`: look the lower-cased name up among the
abbreviated and full names; unmatched names pass through unchanged. -/
def sqlGetFullName (fieldNames : List (String × String)) (field : String) : String :=
  let m := pyLower field
  match fieldNames.find? (fun p => m == p.1 || m == p.2) with
  | some p => p.2
  | none => m

mutual

/-- The `SQLQuery` renderer: `search_not` prepends `NOT ` *without*
parentheses, `search_and`/`search_or` join the already-rendered child
fragments with ` AND `/` OR ` inside parentheses, string leaves render
`"<column>" LIKE '<term with * as %>'`, numeric leaves
`"<column>" <comp> <term>`, and `search_list` renders the empty string. -/
def sqlRender (fn : List (String × String)) : QNode → String
  | .snot n => "NOT " ++ sqlRender fn n
  | .sand ops => "(" ++ String.intercalate " AND " (sqlRenderList fn ops) ++ ")"
  | .sor ops => "(" ++ String.intercalate " OR " (sqlRenderList fn ops) ++ ")"
  | .sstr term field =>
    "\"" ++ sqlGetFullName fn field ++ "\" LIKE " ++ sglQuote ++
      (pyReplaceStarPercent term) ++ sglQuote
  | .snum comp term field =>
    "\"" ++ sqlGetFullName fn field ++ "\" " ++ comp ++ " " ++ term
  | .slist _ _ _ => ""

/-- Already-rendered child fragments of a `SQLQuery` AND/OR node. -/
def sqlRenderList (fn : List (String × String)) : List QNode → List String
  | [] => []
  | n :: ns => sqlRender fn n :: sqlRenderList fn ns

end

/-- Days between a Gregorian civil date and 1970-01-01 (the standard
days-from-civil computation, using truncating integer division). -/
def daysFromCivil (y m d : Nat) : Int :=
  let yy : Int := (y : Int) - (if m ≤ 2 then 1 else 0)
  let era : Int := (if 0 ≤ yy then yy else yy - 399) / 400
  let yoe : Int := yy - era * 400
  let mp : Int := ((m : Int) + 9) % 12
  let doy : Int := (153 * mp + 2) / 5 + (d : Int) - 1
  let doe : Int := yoe * 365 + yoe / 4 - yoe / 100 + doy
  era * 146097 + doe - 719468

/-- `int(qterm.timestamp())` for a midnight datetime, from the encoded
date.  A naive Python datetime is interpreted in the host timezone;
modelled here as UTC. -/
def dateToTimestamp (enc : Nat) : Int :=
  daysFromCivil (enc / 10000) (enc / 100 % 100) (enc % 100) * 86400

mutual

/-- The `SQLiteQuery` renderer: `search_not` wraps the child fragment as
`NOT (<fragment>)`, `search_and`/`search_or` join child fragments with
` AND `/` OR ` inside parentheses, and leaves convert their term through
`FieldSpecification` before rendering (dates are compared as UNIX
timestamps). -/
def sqliteRender (fields : List (FieldKey × String)) : QNode → Except String String
  | .snot n =>
    match sqliteRender fields n with
    | .error e => .error e
    | .ok f => .ok ("NOT (" ++ f ++ ")")
  | .sand ops =>
    match sqliteRenderList fields ops with
    | .error e => .error e
    | .ok fs => .ok ("(" ++ String.intercalate " AND " fs ++ ")")
  | .sor ops =>
    match sqliteRenderList fields ops with
    | .error e => .error e
    | .ok fs => .ok ("(" ++ String.intercalate " OR " fs ++ ")")
  | .sstr term field =>
    match fsConvertString fields field term with
    | .error e => .error e
    | .ok (_, op, .s qterm) =>
      .ok ("\"" ++ op ++ "\" LIKE " ++ sglQuote ++ (pyReplaceStarPercent qterm) ++ sglQuote)
    | .ok (_, op, .b qb) =>
      .ok ("\"" ++ op ++ "\" = " ++ (if qb then "1" else "0"))
  | .snum comp term field =>
    match fsConvertNumeric fields field term with
    | .error e => .error e
    | .ok (_, op, .vdate d) =>
      .ok ("CAST(strftime(" ++ sglQuote ++ "%s" ++ sglQuote ++ ", \"" ++ op ++ "\") AS INT) " ++
        comp ++ " " ++ toString (dateToTimestamp d))
    | .ok (_, op, _) =>
      .ok ("\"" ++ op ++ "\" " ++ comp ++ " " ++ term)
  | .slist _comp term field =>
    match fsConvertList fields field term with
    | .error e => .error e
    | .ok (_, op, l) =>
      .ok ("\"" ++ op ++ "\" IN (" ++ String.intercalate "," l ++ ")")

/-- Already-rendered child fragments of a `SQLiteQuery` AND/OR node. -/
def sqliteRenderList (fields : List (FieldKey × String)) :
    List QNode → Except String (List String)
  | [] => .ok []
  | n :: ns =>
    match sqliteRender fields n with
    | .error e => .error e
    | .ok f =>
      match sqliteRenderList fields ns with
      | .error e => .error e
      | .ok fs => .ok (f :: fs)

end

/-- The `legs` field key of the test menagerie (an `int` field). -/
def legsKey : FieldKey := { full := "legs", abbr := "lg", ty := .tint }

/-- The `name` field key of the test menagerie (a `str` field). -/
def nameKey : FieldKey := { full := "name", abbr := "nm", ty := .tstr }

/-- The `tags` field key used to exercise list search (a `list` field). -/
def tagsKey : FieldKey := { full := "tags", abbr := "tg", ty := .tlist }

/-- A small concrete `ObjectListQuery` state: three records with their
`legs` counts and names indexed, as `add_objects` would build them. -/
def animalsOL : OLState Unit :=
  { fields := [(legsKey, fun _ => none), (nameKey, fun _ => none)]
    data := [(0, ()), (1, ()), (2, ())]
    indexes := [(legsKey, [(0, .vint 4), (1, .vint 1000), (2, .vint 8)]),
                (nameKey, [(0, .vstr "zebra"), (1, .vstr "millipede"), (2, .vstr "spider")])]
    universal := {0, 1, 2} }

/-- The same records as a `DictionaryDataBase` state. -/
def animalsDDB : DDBState :=
  { fields := [legsKey, nameKey]
    indexes := [(legsKey, [(0, .vint 4), (1, .vint 1000), (2, .vint 8)]),
                (nameKey, [(0, .vstr "zebra"), (1, .vstr "millipede"), (2, .vstr "spider")])]
    universal := {0, 1, 2} }

/-- An `ObjectListQuery` state with one list-typed field whose single
record carries the list value `["a", "b"]`. -/
def tagsOL : OLState Unit :=
  { fields := [(tagsKey, fun _ => none)]
    data := [(0, ())]
    indexes := [(tagsKey, [(0, .vlist ["a", "b"])])]
    universal := {0} }

/-- C2 counterexample: the claim says AND and OR share one precedence level
and group left to right, so that `a[x] or b[x] and c[x]` would parse as
`(a OR b) AND c`; the grammar built by `operatorPrecedence` instead puts
AND on a tighter level, producing `a OR (b AND c)`. -/
theorem parse_mixed_or_and_counter :
    parseQuery "a[x] or b[x] and c[x]" =
      some (.sor [.sstr "a" "x", .sand [.sstr "b" "x", .sstr "c" "x"]]) ∧
    parseQuery "a[x] or b[x] and c[x]" ≠
      some (.sand [.sor [.sstr "a" "x", .sstr "b" "x"], .sstr "c" "x"]) := by
  refine ⟨rfl, fun h => ?_⟩
  have h2 := Option.some.inj
    ((show parseQuery "a[x] or b[x] and c[x]" =
        some (.sor [.sstr "a" "x", .sand [.sstr "b" "x", .sstr "c" "x"]]) from rfl).symm.trans h)
  exact QNode.noConfusion h2

/-- C2 amended: `operatorPrecedence` builds three precedence levels — NOT
tightest, then AND, then OR — each AND/OR level left-associative and
flattened into one n-ary node per run; so `a[x] or b[x] and c[x]` parses as
`a OR (b AND c)`, a run of ANDs or ORs flattens into one node, and NOT
binds tighter than AND. -/
theorem parse_precedence_levels :
    parseQuery "a[x] or b[x] and c[x]" =
      some (.sor [.sstr "a" "x", .sand [.sstr "b" "x", .sstr "c" "x"]]) ∧
    parseQuery "a[x] and b[x] and c[x]" =
      some (.sand [.sstr "a" "x", .sstr "b" "x", .sstr "c" "x"]) ∧
    parseQuery "a[x] or b[x] or c[x]" =
      some (.sor [.sstr "a" "x", .sstr "b" "x", .sstr "c" "x"]) ∧
    parseQuery "not a[x] and b[x]" =
      some (.sand [.snot (.sstr "a" "x"), .sstr "b" "x"]) :=
  ⟨rfl, rfl, rfl, rfl⟩

/-- C4: the claim says `convert_term_to_type` maps any term that
case-insensitively equals `"t"` to `True` for a boolean field.  The code
compares the *uncalled* bound method `term.lower` with `"t"`, which is
`False` for every term, so both `"T"` and `"t"` convert to `False`; the
sibling `FieldSpecification.convert_string` (which calls `term.lower()`)
shows the intended behaviour. -/
theorem convert_term_to_type_bool_always_false :
    convertTermToType "flys" "T" .tbool [.tstr, .tbool] = .ok (.vbool false) ∧
    convertTermToType "flys" "t" .tbool [.tstr, .tbool] = .ok (.vbool false) ∧
    (∀ term : String,
      convertTermToType "flys" term .tbool [.tstr, .tbool] = .ok (.vbool false)) ∧
    fsConvertString [({ full := "flys", abbr := "fy", ty := .tbool }, "flys")] "flys" "T" =
      .ok ({ full := "flys", abbr := "fy", ty := .tbool }, "flys", .b true) :=
  ⟨rfl, rfl, fun _ => rfl, rfl⟩

/-- C7 counterexample: the claim says the in-memory `search_list` with `!`
returns the identifiers whose indexed set equals the comma-split term set.
Record 0 of `tagsOL` carries exactly the term list, yet `search_list`
returns the empty set — it is an unimplemented stub. -/
theorem olSearchList_empty_counter :
    olSearchList tagsOL "!" "a,b" "tags" = .ok (∅ : Finset Nat) ∧
    (0 : Nat) ∈ tagsOL.universal ∧
    (0 : Nat) ∉ (∅ : Finset Nat) ∧
    (pySplit ',' "a,b") = ["a", "b"] :=
  ⟨rfl, by decide, by decide, by decide⟩

/-- C7 amended: `ObjectListQuery.search_list` ignores its arguments and
returns the empty set for every comparator, term and field; the described
semantics — `!` exact equality of the indexed set with the comma-split term
set, `?` the term set a subset of the indexed set — is implemented only by
the pubmed `ListField.get_entry_set`. -/
theorem searchList_stub_and_listField :
    (∀ (Obj : Type) (st : OLState Obj) (comp term field : String),
      olSearchList st comp term field = .ok (∅ : Finset Nat)) ∧
    (∀ (m : List (Nat × Finset String)) (value : String) (idx : Nat),
      (∃ r, listFieldEntrySet m value "!" = some r ∧
        (idx ∈ r ↔ ∃ es, (idx, es) ∈ m ∧ es = (pySplit ',' value).toFinset)) ∧
      (∃ r, listFieldEntrySet m value "?" = some r ∧
        (idx ∈ r ↔ ∃ es, (idx, es) ∈ m ∧ (pySplit ',' value).toFinset ⊆ es))) := by
  refine ⟨fun _ _ _ _ _ => rfl, fun m value idx => ⟨⟨_, rfl, ?_⟩, ⟨_, rfl, ?_⟩⟩⟩
  · constructor
    · intro h
      simp only [List.mem_toFinset, List.mem_map, List.mem_filter] at h
      obtain ⟨⟨i, es⟩, ⟨hm, hp⟩, hfst⟩ := h
      subst hfst
      exact ⟨es, hm, by simpa using hp⟩
    · rintro ⟨es, hm, hp⟩
      simp only [List.mem_toFinset, List.mem_map, List.mem_filter]
      exact ⟨(idx, es), ⟨hm, by simpa using hp⟩, rfl⟩
  · constructor
    · intro h
      simp only [List.mem_toFinset, List.mem_map, List.mem_filter] at h
      obtain ⟨⟨i, es⟩, ⟨hm, hp⟩, hfst⟩ := h
      subst hfst
      exact ⟨es, hm, by simpa using hp⟩
    · rintro ⟨es, hm, hp⟩
      simp only [List.mem_toFinset, List.mem_map, List.mem_filter]
      exact ⟨(idx, es), ⟨hm, by simpa using hp⟩, rfl⟩

/-- C8 counterexample: the claim says the top-level query entry point
treats the empty query as match-everything before parsing.  For the
`ObjectListQuery` pipeline there is no such special case: the empty string
reaches the grammar and `Query.query` turns the parse failure into
`ValueError('The query cannot be parsed.')`. -/
theorem olQuery_empty_string_counter :
    olQueryIds animalsOL "" = .error "The query cannot be parsed." ∧
    olQueryIds animalsOL "" ≠ .ok animalsOL.universal := by
  refine ⟨rfl, fun h => ?_⟩
  have h2 := (show olQueryIds animalsOL "" =
    .error "The query cannot be parsed." from rfl).symm.trans h
  exact Except.noConfusion h2

/-- C8 amended: only the PubMed entry point special-cases the empty query,
returning `fields[0].universal_set` before any parsing; the resume
`Query.query` has no empty-string case, so an empty query reaches the
parser and raises `ValueError('The query cannot be parsed.')` for every
backend state. -/
theorem empty_query_handling :
    (∀ (f : PMField) (rest : List PMField),
      pmGetObjectSet (f :: rest) "" = .ok f.universalSet) ∧
    (∀ (Obj : Type) (st : OLState Obj),
      olQueryIds st "" = .error "The query cannot be parsed.") :=
  ⟨fun _ _ => rfl, fun _ _ => rfl⟩

/-- The column-name environment used in the SQL rendering examples. -/
def sqlNames : List (String × String) := [("nm", "name")]

/-- C9 counterexample: the claim says the SQL-rendering backend wraps the
child of `search_not` as `NOT (<fragment>)`.  `SQLQuery.search_not` only
prepends `NOT ` without parentheses. -/
theorem sqlQuery_not_no_parens_counter :
    sqlRender sqlNames (.snot (.sstr "z*" "nm")) =
      "NOT " ++ sqlRender sqlNames (.sstr "z*" "nm") ∧
    sqlRender sqlNames (.snot (.sstr "z*" "nm")) ≠
      "NOT (" ++ sqlRender sqlNames (.sstr "z*" "nm") ++ ")" :=
  ⟨rfl, by decide⟩

/-- C9 amended: `SQLiteQuery.search_not` wraps the already-rendered child
fragment as `NOT (<fragment>)`, while `SQLQuery.search_not` prepends
`NOT ` without parentheses; both renderers join the child fragments of
`search_and`/`search_or` with ` AND `/` OR ` inside parentheses. -/
theorem sql_renderers_not_and_or :
    (∀ (fn : List (String × String)) (n : QNode),
      sqlRender fn (.snot n) = "NOT " ++ sqlRender fn n) ∧
    (∀ (fn : List (String × String)) (ops : List QNode),
      sqlRender fn (.sand ops) =
        "(" ++ String.intercalate " AND " (ops.map (sqlRender fn)) ++ ")") ∧
    (∀ (fn : List (String × String)) (ops : List QNode),
      sqlRender fn (.sor ops) =
        "(" ++ String.intercalate " OR " (ops.map (sqlRender fn)) ++ ")") ∧
    (∀ (flds : List (FieldKey × String)) (n : QNode),
      sqliteRender flds (.snot n) =
        (sqliteRender flds n).map (fun f => "NOT (" ++ f ++ ")")) ∧
    (∀ (flds : List (FieldKey × String)) (ops : List QNode) (fs : List String),
      sqliteRenderList flds ops = .ok fs →
      sqliteRender flds (.sand ops) =
        .ok ("(" ++ String.intercalate " AND " fs ++ ")") ∧
      sqliteRender flds (.sor ops) =
        .ok ("(" ++ String.intercalate " OR " fs ++ ")")) := by
  refine ⟨fun fn n => rfl, fun fn ops => ?_, fun fn ops => ?_, fun flds n => ?_,
    fun flds ops fs h => ?_⟩
  · have : sqlRenderList fn ops = ops.map (sqlRender fn) := by
      induction ops with
      | nil => rfl
      | cons x xs ih => simp [sqlRenderList, ih]
    simp [sqlRender, this]
  · have : sqlRenderList fn ops = ops.map (sqlRender fn) := by
      induction ops with
      | nil => rfl
      | cons x xs ih => simp [sqlRenderList, ih]
    simp [sqlRender, this]
  · cases h : sqliteRender flds n with
    | error e => simp [sqliteRender, h, Except.map]
    | ok f => simp [sqliteRender, h, Except.map]
  · constructor
    · simp [sqliteRender, h]
    · simp [sqliteRender, h]

/-- C9 amended witness: the SQLite conjunct instantiated on a concrete
operand list. -/
theorem sql_renderers_not_and_or_witness :
    sqliteRenderList [(nameKey, "name")]
        [.sstr "z*" "name", .sstr "a" "name"] =
      .ok ["\"name\" LIKE " ++ sglQuote ++ "z%" ++ sglQuote,
           "\"name\" LIKE " ++ sglQuote ++ "a" ++ sglQuote] ∧
    sqliteRender [(nameKey, "name")]
        (.sand [.sstr "z*" "name", .sstr "a" "name"]) =
      .ok ("(" ++ String.intercalate " AND "
        ["\"name\" LIKE " ++ sglQuote ++ "z%" ++ sglQuote,
         "\"name\" LIKE " ++ sglQuote ++ "a" ++ sglQuote] ++ ")") :=
  ⟨rfl, ((sql_renderers_not_and_or.2.2.2.2 [(nameKey, "name")]
      [.sstr "z*" "name", .sstr "a" "name"] _ rfl).1)⟩

theorem wildFree_cons {c : Char} {p : List Char} (hp : wildFree (c :: p) = true) :
    (c == '*') = false ∧ (c == '?') = false ∧ wildFree p = true := by
  have h := hp
  simp only [wildFree, List.all_cons, Bool.and_eq_true, Bool.not_eq_true',
    Bool.or_eq_false_iff] at h
  exact ⟨h.1.1, h.1.2, h.2⟩

theorem globMatch_literal : ∀ (p s : List Char), wildFree p = true →
    (globMatch p s = true ↔ p = s) := by
  intro p
  induction p with
  | nil => intro s _; cases s <;> simp [globMatch]
  | cons c p ih =>
    intro s hp
    obtain ⟨hc, hq, hp'⟩ := wildFree_cons hp
    cases s with
    | nil => simp [globMatch, hc]
    | cons d s' =>
      simp only [globMatch, hc, hq, Bool.false_eq_true, if_false,
        Bool.and_eq_true, beq_iff_eq, List.cons.injEq]
      constructor
      · rintro ⟨hcd, hrec⟩
        exact ⟨hcd, (ih s' hp').mp hrec⟩
      · rintro ⟨hcd, hps⟩
        exact ⟨hcd, (ih s' hp').mpr hps⟩

theorem globStar_iff (f : List Char → Bool) :
    ∀ s, globStar f s = true ↔ ∃ i, f (s.drop i) = true := by
  intro s
  induction s with
  | nil =>
    simp only [globStar, List.drop_nil]
    constructor
    · intro h; exact ⟨0, h⟩
    · rintro ⟨i, h⟩; exact h
  | cons d s ih =>
    simp only [globStar, Bool.or_eq_true]
    constructor
    · intro h
      cases h with
      | inl h1 => exact ⟨0, h1⟩
      | inr h2 =>
        obtain ⟨i, hi⟩ := ih.mp h2
        exact ⟨i + 1, hi⟩
    · rintro ⟨i, hi⟩
      cases i with
      | zero => exact Or.inl hi
      | succ j => exact Or.inr (ih.mpr ⟨j, hi⟩)

theorem globMatch_star_all : ∀ (s : List Char), globMatch ['*'] s = true := by
  intro s
  induction s with
  | nil => simp [globMatch, globStar]
  | cons d s ih =>
    simp only [globMatch] at ih ⊢
    simp only [beq_self_eq_true, if_true, globStar, Bool.or_eq_true] at ih ⊢
    exact Or.inr ih

theorem globMatch_star_front : ∀ (p s : List Char),
    globMatch ('*' :: p) s = true ↔ ∃ i, globMatch p (s.drop i) = true := by
  intro p s
  have h : globMatch ('*' :: p) s = globStar (globMatch p) s := by
    simp [globMatch]
  rw [h]
  exact globStar_iff (globMatch p) s

theorem globMatch_star_back : ∀ (p : List Char), wildFree p = true →
    ∀ s, globMatch (p ++ ['*']) s = true ↔ ∃ u, p ++ u = s := by
  intro p
  induction p with
  | nil =>
    intro _ s
    simp only [List.nil_append]
    constructor
    · intro _; exact ⟨s, rfl⟩
    · intro _; exact globMatch_star_all s
  | cons c p ih =>
    intro hp s
    obtain ⟨hc, hq, hp'⟩ := wildFree_cons hp
    cases s with
    | nil => simp [globMatch, hc]
    | cons d s' =>
      simp only [List.cons_append, globMatch, hc, hq, Bool.false_eq_true, if_false,
        Bool.and_eq_true, beq_iff_eq, List.cons.injEq]
      constructor
      · rintro ⟨hcd, hrec⟩
        obtain ⟨u, hu⟩ := (ih hp' s').mp hrec
        exact ⟨u, hcd, hu⟩
      · rintro ⟨u, hcd, hu⟩
        exact ⟨hcd, (ih hp' s').mpr ⟨u, hu⟩⟩

theorem wildFree_getLast_ne_star {p : List Char} (hp : wildFree p = true)
    {l : Char} (hl : p.getLast? = some l) : (l == '*') = false := by
  have hm : l ∈ p := by
    have hmo : l ∈ p.getLast? := Option.mem_def.mpr hl
    obtain ⟨hne, heq⟩ := List.mem_getLast?_eq_getLast hmo
    rw [heq]
    exact List.getLast_mem hne
  simp only [wildFree, List.all_eq_true] at hp
  have := hp l hm
  cases hls : l == '*' with
  | false => rfl
  | true => simp [hls] at this

theorem wrapStars_wildFree (p : List Char) (hp : wildFree p = true) (hne : p ≠ []) :
    wrapStars p = some ('*' :: (p ++ ['*'])) := by
  cases p with
  | nil => exact absurd rfl hne
  | cons c rest =>
    obtain ⟨hc, _, _⟩ := wildFree_cons hp
    obtain ⟨l, hl⟩ : ∃ l, (c :: rest).getLast? = some l := by
      cases hgl : (c :: rest).getLast? with
      | none => simp at hgl
      | some x => exact ⟨x, rfl⟩
    have hl' : (l == '*') = false := wildFree_getLast_ne_star hp hl
    simp [wrapStars, hc, List.getLast?_cons_cons, hl, hl']

/-- C5 counterexample: the claim says the in-memory string search matches
the glob anchored to the full indexed value, so the wildcard-free term
`er` (a proper suffix of `spider`) would match nothing.  The resume
backend matches it (`re.search` on `fnmatch.translate` anchors only the
end), and `DictionaryDataBase` matches the bare prefix `zeb` against
`zebra` (it wraps terms in `*`). -/
theorem olSearchString_suffix_match_counter :
    olSearchString animalsOL "er" "name" = .ok ({2} : Finset Nat) ∧
    olSearchString animalsOL "er" "name" ≠ .ok (∅ : Finset Nat) ∧
    ddbSearchString animalsDDB "zeb" "name" = .ok ({0} : Finset Nat) := by
  refine ⟨by decide, ?_, by decide⟩
  intro h
  have h2 := (show olSearchString animalsOL "er" "name" = .ok ({2} : Finset Nat)
    from by decide).symm.trans h
  have h3 := Except.ok.inj h2
  exact absurd h3 (by decide)

/-- C5 amended: neither in-memory backend anchors a bare term to the full
value.  `ObjectListQuery.search_string` matches a wildcard-free term
exactly against the values having it as a *suffix*; `DictionaryDataBase`
wraps the term in `*` on both ends, matching exactly the values containing
it as a substring. -/
theorem string_search_suffix_and_substring :
    (∀ (p s : List Char), wildFree p = true →
      (globAnyEnd p s = true ↔ ∃ t, t ++ p = s)) ∧
    (∀ (p s : List Char), wildFree p = true → p ≠ [] →
      ∃ pat, wrapStars p = some pat ∧
        (globMatch pat s = true ↔ ∃ t u, t ++ p ++ u = s)) := by
  constructor
  · intro p s hp
    simp only [globAnyEnd, List.any_eq_true, List.mem_range]
    constructor
    · rintro ⟨i, _, hg⟩
      have hps := (globMatch_literal p (s.drop i) hp).mp hg
      exact ⟨s.take i, by rw [hps]; exact List.take_append_drop i s⟩
    · rintro ⟨t, ht⟩
      refine ⟨t.length, ?_, ?_⟩
      · have : s.length = t.length + p.length := by
          rw [← ht, List.length_append]
        omega
      · have hdrop : s.drop t.length = p := by
          rw [← ht, List.drop_left]
        rw [hdrop]
        exact (globMatch_literal p p hp).mpr rfl
  · intro p s hp hne
    refine ⟨_, wrapStars_wildFree p hp hne, ?_⟩
    rw [globMatch_star_front (p ++ ['*']) s]
    constructor
    · rintro ⟨i, hi⟩
      obtain ⟨u, hu⟩ := (globMatch_star_back p hp (s.drop i)).mp hi
      refine ⟨s.take i, u, ?_⟩
      rw [List.append_assoc, hu, List.take_append_drop]
    · rintro ⟨t, u, htu⟩
      refine ⟨t.length, (globMatch_star_back p hp (s.drop t.length)).mpr ⟨u, ?_⟩⟩
      rw [← htu, List.append_assoc, List.drop_left]

/-- C5 amended witness: `er` is a suffix of `spider`, so the end-anchored
search matches; `zeb` is a substring of `zebra`, so the wildcard-wrapped
pattern matches. -/
theorem string_search_suffix_and_substring_witness :
    (wildFree "er".data = true ∧ globAnyEnd "er".data "spider".data = true) ∧
    (wildFree "zeb".data = true ∧ "zeb".data ≠ [] ∧
      ∃ pat, wrapStars "zeb".data = some pat ∧ globMatch pat "zebra".data = true) := by
  refine ⟨⟨by decide, ?_⟩, by decide, by decide, ?_⟩
  · exact (string_search_suffix_and_substring.1 "er".data "spider".data
      (by decide)).mpr ⟨"spid".data, by decide⟩
  · obtain ⟨pat, hpat, hiff⟩ := string_search_suffix_and_substring.2
      "zeb".data "zebra".data (by decide) (by decide)
    exact ⟨pat, hpat, hiff.mpr ⟨[], "ra".data, by decide⟩⟩

theorem optMapPairs_mem {rel : Value → Option Bool} :
    ∀ (m : List (Nat × Value)) (l : List (Nat × Bool)),
      optMapPairs rel m = some l →
      ∀ (idx : Nat) (b : Bool),
        ((idx, b) ∈ l ↔ ∃ v, (idx, v) ∈ m ∧ rel v = some b) := by
  intro m
  induction m with
  | nil =>
    intro l hl idx b
    simp only [optMapPairs, Option.some.injEq] at hl
    subst hl
    simp
  | cons p ps ih =>
    intro l hl idx b
    simp only [optMapPairs] at hl
    cases hrel : rel p.2 with
    | none => rw [hrel] at hl; cases hl
    | some b0 =>
      rw [hrel] at hl
      cases hps : optMapPairs rel ps with
      | none => rw [hps] at hl; cases hl
      | some l' =>
        rw [hps] at hl
        simp only [Option.map_some', Option.some.injEq] at hl
        subst hl
        simp only [List.mem_cons, Prod.mk.injEq]
        constructor
        · rintro (⟨hidx, hb⟩ | hmem)
          · exact ⟨p.2, Or.inl (by rw [hidx]), by rw [hb]; exact hrel⟩
          · obtain ⟨v, hv, hr⟩ := (ih l' hps idx b).mp hmem
            exact ⟨v, Or.inr hv, hr⟩
        · rintro ⟨v, hv | hv, hr⟩
          · have h1 : idx = p.1 := by rw [← hv]
            have h2 : v = p.2 := by rw [← hv]
            subst h2
            rw [hrel] at hr
            exact Or.inl ⟨h1, (Option.some.inj hr).symm⟩
          · exact Or.inr ((ih l' hps idx b).mpr ⟨v, hv, hr⟩)

theorem optMapPairs_total {rel : Value → Option Bool} :
    ∀ (m : List (Nat × Value)) (l : List (Nat × Bool)),
      optMapPairs rel m = some l →
      ∀ p ∈ m, ∃ b, rel p.2 = some b := by
  intro m
  induction m with
  | nil => intro l _ p hp; cases hp
  | cons q ps ih =>
    intro l hl p hp
    simp only [optMapPairs] at hl
    cases hrel : rel q.2 with
    | none => rw [hrel] at hl; cases hl
    | some b0 =>
      rw [hrel] at hl
      cases hps : optMapPairs rel ps with
      | none => rw [hps] at hl; cases hl
      | some l' =>
        cases hp with
        | head => exact ⟨b0, hrel⟩
        | tail _ hmem => exact ih l' hps p hmem

theorem cmpApply_mem {rel : Value → Option Bool} {m : List (Nat × Value)}
    {r : Finset Nat} (h : cmpApply rel m = .ok r) (idx : Nat) :
    idx ∈ r ↔ ∃ v, (idx, v) ∈ m ∧ rel v = some true := by
  unfold cmpApply at h
  cases hm : optMapPairs rel m with
  | none => rw [hm] at h; cases h
  | some l =>
    rw [hm] at h
    have hr : r = filterTrueIds l := (Except.ok.inj h).symm
    subst hr
    simp only [filterTrueIds, List.mem_toFinset, List.mem_map, List.mem_filter]
    constructor
    · rintro ⟨⟨i, b⟩, ⟨hmem, hb⟩, hfst⟩
      simp only at hfst hb
      rw [hb] at hmem
      rw [← hfst]
      exact (optMapPairs_mem m l hm i true).mp hmem
    · intro hex
      exact ⟨(idx, true), ⟨(optMapPairs_mem m l hm idx true).mpr hex, rfl⟩, rfl⟩

theorem cmpApply_total {rel : Value → Option Bool} {m : List (Nat × Value)}
    {r : Finset Nat} (h : cmpApply rel m = .ok r) :
    ∀ p ∈ m, ∃ b, rel p.2 = some b := by
  unfold cmpApply at h
  cases hm : optMapPairs rel m with
  | none => rw [hm] at h; cases h
  | some l => exact optMapPairs_total m l hm

theorem assoc_value_unique {V : Type} :
    ∀ {m : List (Nat × V)}, (m.map Prod.fst).Nodup →
      ∀ {idx : Nat} {v v' : V}, (idx, v) ∈ m → (idx, v') ∈ m → v = v' := by
  intro m
  induction m with
  | nil => intro _ idx v v' h; cases h
  | cons p ps ih =>
    intro hnd idx v v' h1 h2
    simp only [List.map_cons, List.nodup_cons] at hnd
    cases h1 with
    | head =>
      cases h2 with
      | head => rfl
      | tail _ hmem =>
        exact absurd (List.mem_map_of_mem Prod.fst hmem) (by simpa using hnd.1)
    | tail _ hmem1 =>
      cases h2 with
      | head =>
        exact absurd (List.mem_map_of_mem Prod.fst hmem1) (by simpa using hnd.1)
      | tail _ hmem2 => exact ih hnd.2 hmem1 hmem2

theorem pyEq_pyCmp_eq {v q : Value} (hEq : pyEq v q = true) :
    ∀ o, pyCmp v q = some o → o = Ordering.eq := by
  intro o hCmp
  cases hrv : toRatV v with
  | some x =>
    cases hrq : toRatV q with
    | some y =>
      simp only [pyEq, hrv, hrq, beq_iff_eq] at hEq
      simp only [pyCmp, hrv, hrq, Option.some.injEq] at hCmp
      rw [← hCmp]
      simp [hEq]
    | none =>
      cases v <;> cases q <;>
        simp_all [pyEq, pyCmp, toRatV, beq_iff_eq]
  | none =>
    cases v <;> cases q <;>
      simp_all [pyEq, pyCmp, toRatV, beq_iff_eq]

/-- C1 counterexample: the claim says both in-memory `>` and `<` searches
include a record whose indexed value equals the converted term.  In
`animalsOL`, record 0 has `legs = 4`, the term `4` converts to the equal
float, yet `ObjectListQuery.search_number` (strict `operator.gt`/`lt`)
excludes record 0 from both the `>` and the `<` result. -/
theorem olSearchNumber_strict_at_equal_counter :
    olSearchNumber animalsOL ">" "4" "legs" = .ok ({1, 2} : Finset Nat) ∧
    olSearchNumber animalsOL "<" "4" "legs" = .ok (∅ : Finset Nat) ∧
    olGetIndex animalsOL legsKey =
      .ok [(0, .vint 4), (1, .vint 1000), (2, .vint 8)] ∧
    convertNumTerm legsKey.ty "legs" "4" = .ok (.vfloat 4) ∧
    pyEq (.vint 4) (.vfloat 4) = true ∧
    (0 : Nat) ∉ ({1, 2} : Finset Nat) ∧
    (0 : Nat) ∉ (∅ : Finset Nat) := by
  refine ⟨by decide, by decide, by decide, by decide, by decide, by decide, by decide⟩

/-- C1 amended: the two in-memory backends disagree on the boundary.
`DictionaryDataBase.search_number` is inclusive (`>` means `>=`, `<` means
`<=`), so a record whose indexed value equals the converted term is in both
results; `ObjectListQuery.comparator_map` maps `>`/`<` to the strict
`operator.gt`/`operator.lt`, so the same record is excluded from both. -/
theorem searchNumber_bounds_ddb_inclusive_ol_strict :
    (∀ (st : DDBState) (k : FieldKey) (term field : String) (q v : Value)
      (idx : Nat) (m : List (Nat × Value)) (r : Finset Nat),
      olMatchField st.fields field = .ok k →
      convertNumTerm k.ty field term = .ok q →
      ddbGetIndex st k = .ok m →
      (idx, v) ∈ m → pyEq v q = true →
      (ddbSearchNumber st ">" term field = .ok r → idx ∈ r) ∧
      (ddbSearchNumber st "<" term field = .ok r → idx ∈ r)) ∧
    (∀ (Obj : Type) (st : OLState Obj) (k : FieldKey) (term field : String)
      (q v : Value) (idx : Nat) (m : List (Nat × Value)) (r : Finset Nat),
      olMatchField (st.fields.map (fun p => p.1)) field = .ok k →
      convertNumTerm k.ty field term = .ok q →
      olGetIndex st k = .ok m →
      (m.map Prod.fst).Nodup →
      (idx, v) ∈ m → pyEq v q = true →
      (olSearchNumber st ">" term field = .ok r → idx ∉ r) ∧
      (olSearchNumber st "<" term field = .ok r → idx ∉ r)) := by
  constructor
  · intro st k term field q v idx m r hmatch hconv hidx hmem hEq
    constructor
    · intro h
      simp only [ddbSearchNumber, hmatch, hconv, hidx] at h
      norm_num at h
      have htot := cmpApply_total h (idx, v) hmem
      obtain ⟨b, hb⟩ := htot
      simp only at hb
      cases hcmp : pyCmp v q with
      | none => rw [hcmp] at hb; cases hb
      | some o =>
        have ho := pyEq_pyCmp_eq hEq o hcmp
        subst ho
        exact (cmpApply_mem h idx).mpr ⟨v, hmem, by rw [hcmp]; rfl⟩
    · intro h
      simp only [ddbSearchNumber, hmatch, hconv, hidx] at h
      norm_num at h
      have htot := cmpApply_total h (idx, v) hmem
      obtain ⟨b, hb⟩ := htot
      simp only at hb
      cases hcmp : pyCmp v q with
      | none => rw [hcmp] at hb; cases hb
      | some o =>
        have ho := pyEq_pyCmp_eq hEq o hcmp
        subst ho
        exact (cmpApply_mem h idx).mpr ⟨v, hmem, by rw [hcmp]; rfl⟩
  · intro Obj st k term field q v idx m r hmatch hconv hidx hnd hmem hEq
    constructor
    · intro h hin
      simp only [olSearchNumber, hmatch, hconv, hidx] at h
      norm_num at h
      obtain ⟨v2, hmem2, hrel2⟩ := (cmpApply_mem h idx).mp hin
      have hv : v2 = v := assoc_value_unique hnd hmem2 hmem
      subst hv
      have hEq2 : pyEq v2 q = true := hEq
      have hrel3 : (pyCmp v2 q).map (fun o => o == Ordering.gt) = some true := hrel2
      cases hcmp : pyCmp v2 q with
      | none => rw [hcmp] at hrel3; simp at hrel3
      | some o =>
        have ho := pyEq_pyCmp_eq hEq2 o hcmp
        subst ho
        rw [hcmp] at hrel3
        simp only [Option.map_some', Option.some.injEq] at hrel3
        exact absurd hrel3 (by decide)
    · intro h hin
      simp only [olSearchNumber, hmatch, hconv, hidx] at h
      norm_num at h
      obtain ⟨v2, hmem2, hrel2⟩ := (cmpApply_mem h idx).mp hin
      have hv : v2 = v := assoc_value_unique hnd hmem2 hmem
      subst hv
      have hEq2 : pyEq v2 q = true := hEq
      have hrel3 : (pyCmp v2 q).map (fun o => o == Ordering.lt) = some true := hrel2
      cases hcmp : pyCmp v2 q with
      | none => rw [hcmp] at hrel3; simp at hrel3
      | some o =>
        have ho := pyEq_pyCmp_eq hEq2 o hcmp
        subst ho
        rw [hcmp] at hrel3
        simp only [Option.map_some', Option.some.injEq] at hrel3
        exact absurd hrel3 (by decide)

/-- C1 amended witness: record 0 of the menagerie (4 legs) against the term
`4` — included by the inclusive backend, excluded by the strict one. -/
theorem searchNumber_bounds_witness :
    (ddbSearchNumber animalsDDB ">" "4" "legs" = .ok ({0, 1, 2} : Finset Nat) ∧
      (0 : Nat) ∈ ({0, 1, 2} : Finset Nat)) ∧
    (olSearchNumber animalsOL ">" "4" "legs" = .ok ({1, 2} : Finset Nat) ∧
      (0 : Nat) ∉ ({1, 2} : Finset Nat)) := by
  constructor
  · refine ⟨by decide, ?_⟩
    exact (searchNumber_bounds_ddb_inclusive_ol_strict.1 animalsDDB legsKey "4" "legs"
      (.vfloat 4) (.vint 4) 0 [(0, .vint 4), (1, .vint 1000), (2, .vint 8)]
      {0, 1, 2} (by decide) (by decide) (by decide) (by decide) (by decide)).1 (by decide)
  · refine ⟨by decide, ?_⟩
    exact (searchNumber_bounds_ddb_inclusive_ol_strict.2 Unit animalsOL legsKey "4" "legs"
      (.vfloat 4) (.vint 4) 0 [(0, .vint 4), (1, .vint 1000), (2, .vint 8)]
      {1, 2} (by decide) (by decide) (by decide) (by decide) (by decide) (by decide)).1 (by decide)

/-- C6: De Morgan consistency over the in-memory backend — for all
sub-queries A and B against the same state, evaluating `NOT (A AND B)`
yields exactly the result of `NOT A OR NOT B` (including identical error
propagation). -/
theorem evalNode_deMorgan {Obj : Type} (st : OLState Obj) (A B : QNode) :
    evalNode st (.snot (.sand [A, B])) = evalNode st (.sor [.snot A, .snot B]) := by
  cases hA : evalNode st A with
  | error e => simp [evalNode, evalNodes, hA]
  | ok a =>
    cases hB : evalNode st B with
    | error e => simp [evalNode, evalNodes, hA, hB]
    | ok b =>
      simp only [evalNode, evalNodes, hA, hB]
      simp only [List.foldl]
      congr 1
      ext x
      simp only [Finset.mem_sdiff, Finset.mem_inter, Finset.mem_union]
      tauto

/-- Does one character list begin with another?  Helper for `occursIn`. -/
def startsWithChars : List Char → List Char → Bool
  | [], _ => true
  | _ :: _, [] => false
  | a :: as, b :: bs => a == b && startsWithChars as bs

/-- Does `needle` occur as a contiguous substring of `hay`?  Used to state
that an error message does not mention a field name. -/
def occursIn (needle hay : String) : Bool :=
  (List.range (hay.length + 1)).any (fun i => startsWithChars needle.data (hay.data.drop i))

/-- A pubmed field registry containing only `name`, for exercising the
unknown-field validation. -/
def pmNameField : PMField :=
  { fullName := "name", abbrName := "NM", universalSet := ∅, entrySet := fun _ _ => ∅ }

/-- C3 counterexample: the claim says a query with two unknown fields
fails before evaluation with one error listing all of them.  The resume
pipeline instead fails during evaluation with
`Field eggs not recognised.`, which does not mention `torsion`. -/
theorem olQuery_first_unknown_field_counter :
    olQueryIds animalsOL ">1[eggs] and >2[torsion]" =
      .error "Field eggs not recognised." ∧
    occursIn "torsion" "Field eggs not recognised." = false ∧
    occursIn "eggs" ">1[eggs] and >2[torsion]" = true ∧
    occursIn "torsion" ">1[eggs] and >2[torsion]" = true := by
  refine ⟨by decide, by decide, by decide, by decide⟩

/-- C3 amended: only `PubMedParser._parse_query` validates field names
before evaluation, reporting every unknown name in one
`Non-valid fields: ...` error; the resume `Query` pipeline has no
pre-evaluation validation and raises during evaluation naming only the
first unknown field encountered. -/
theorem unknown_fields_aggregation :
    (∀ (fields : List PMField) (q : String) (n : QNode) (rest : List Char),
      balanced q = true →
      parseQueryPR q = .done n rest →
      checkFieldNames fields (collectFields n) ≠ [] →
      pmParseQuery fields q = .error ("Non-valid fields: " ++
        String.intercalate ", " (checkFieldNames fields (collectFields n)))) ∧
    (olQueryIds animalsOL ">1[eggs] and >2[torsion]" =
        .error "Field eggs not recognised." ∧
      pmParseQuery [pmNameField] ">1[eggs] and >2[torsion]" =
        .error "Non-valid fields: eggs, torsion") := by
  refine ⟨?_, by decide, by rfl⟩
  intro fields q n rest hbal hparse hne
  simp only [pmParseQuery, hbal, hparse]
  simp only [not_true, if_false]
  cases hu : checkFieldNames fields (collectFields n) with
  | nil => exact absurd hu hne
  | cons u us => simp [hu]

/-- C3 amended witness: a balanced query with two unknown fields around a
known one aggregates both unknown names into one error. -/
theorem unknown_fields_aggregation_witness :
    pmParseQuery [pmNameField] ">1[eggs] and z[name] and >2[torsion]" =
      .error ("Non-valid fields: " ++ String.intercalate ", "
        (checkFieldNames [pmNameField]
          (collectFields (.sand [.snum ">" "1" "eggs", .sstr "z" "name",
            .snum ">" "2" "torsion"])))) :=
  unknown_fields_aggregation.1 [pmNameField] ">1[eggs] and z[name] and >2[torsion]"
    (.sand [.snum ">" "1" "eggs", .sstr "z" "name", .snum ">" "2" "torsion"]) []
    (by decide) (by rfl) (by decide)

/-- The state invariant `ObjectListQuery` maintains: the universal set is
exactly the key set of the data mapping, and every identifier appearing in
any covering index is in the universal set. -/
def OLInv {Obj : Type} (st : OLState Obj) : Prop :=
  st.universal = (st.data.map Prod.fst).toFinset ∧
  ∀ kl ∈ st.indexes, ∀ p ∈ kl.2, p.1 ∈ st.universal

theorem dinsert_keys {V : Type} (k : Nat) (v : V) :
    ∀ (m : List (Nat × V)),
      ((dinsert k v m).map Prod.fst).toFinset =
        insert k ((m.map Prod.fst).toFinset) := by
  intro m
  induction m with
  | nil => simp [dinsert]
  | cons p ps ih =>
    by_cases hp : p.1 = k
    · simp [dinsert, hp]
    · have hp' : (p.1 == k) = false := by simpa using hp
      simp only [dinsert, hp', Bool.false_eq_true, if_false, List.map_cons,
        List.toFinset_cons, ih]
      exact Finset.Insert.comm p.1 k (List.map Prod.fst ps).toFinset

theorem dinsert_mem {V : Type} {k : Nat} {v : V} :
    ∀ {m : List (Nat × V)} {p : Nat × V},
      p ∈ dinsert k v m → p = (k, v) ∨ p ∈ m := by
  intro m
  induction m with
  | nil =>
    intro p hp
    simp only [dinsert, List.mem_singleton] at hp
    exact Or.inl hp
  | cons q qs ih =>
    intro p hp
    simp only [dinsert] at hp
    split at hp
    · rcases List.mem_cons.mp hp with h | h
      · exact Or.inl h
      · exact Or.inr (List.mem_cons_of_mem q h)
    · rcases List.mem_cons.mp hp with h | h
      · exact Or.inr (h ▸ List.mem_cons_self q qs)
      · rcases ih h with h2 | h2
        · exact Or.inl h2
        · exact Or.inr (List.mem_cons_of_mem q h2)

theorem ixsSet_entry {k : FieldKey} {idx : Nat} {v : Value}
    {ixs : List (FieldKey × List (Nat × Value))} :
    ∀ kl ∈ ixsSet k idx v ixs, ∀ p ∈ kl.2,
      p.1 = idx ∨ ∃ kl0 ∈ ixs, p ∈ kl0.2 := by
  intro kl hkl p hp
  simp only [ixsSet, List.mem_map] at hkl
  obtain ⟨kl0, h0, heq⟩ := hkl
  by_cases hk : kl0.1 == k
  · rw [if_pos hk] at heq
    rw [← heq] at hp
    cases dinsert_mem hp with
    | inl h => exact Or.inl (by rw [h])
    | inr h => exact Or.inr ⟨kl0, h0, h⟩
  · rw [if_neg hk] at heq
    rw [← heq] at hp
    exact Or.inr ⟨kl0, h0, hp⟩

theorem addOne_inv {Obj : Type} {st : OLState Obj} (hInv : OLInv st)
    (idx : Nat) (obj : Obj) : OLInv (addOne st idx obj) := by
  constructor
  · show insert idx st.universal = _
    simp only [addOne, dinsert_keys, hInv.1]
  · intro kl hkl p hp
    show p.1 ∈ insert idx st.universal
    have hgen : ∀ (fs : List (FieldKey × (Obj → Option Value)))
        (ixs0 : List (FieldKey × List (Nat × Value))),
        (∀ kl0 ∈ ixs0, ∀ p0 ∈ kl0.2, p0.1 = idx ∨ p0.1 ∈ st.universal) →
        ∀ kl0 ∈ fs.foldl (fun ixs kf =>
          match kf.2 obj with
          | some v => if isinstanceV v kf.1.ty then ixsSet kf.1 idx v ixs else ixs
          | none => ixs) ixs0, ∀ p0 ∈ kl0.2, p0.1 = idx ∨ p0.1 ∈ st.universal := by
      intro fs
      induction fs with
      | nil => intro ixs0 h0; exact h0
      | cons kf fs ih =>
        intro ixs0 h0
        simp only [List.foldl_cons]
        apply ih
        cases hacc : kf.2 obj with
        | none => exact h0
        | some v0 =>
          by_cases hinst : isinstanceV v0 kf.1.ty
          · simp only [hinst, if_true]
            intro kl0 hkl0 p0 hp0
            cases ixsSet_entry kl0 hkl0 p0 hp0 with
            | inl h => exact Or.inl h
            | inr h =>
              obtain ⟨kl1, hkl1, hp1⟩ := h
              exact h0 kl1 hkl1 p0 hp1
          · simp only [hinst, if_false]
            exact h0
    have hstart : ∀ kl0 ∈ st.indexes, ∀ p0 ∈ kl0.2,
        p0.1 = idx ∨ p0.1 ∈ st.universal :=
      fun kl0 hkl0 p0 hp0 => Or.inr (hInv.2 kl0 hkl0 p0 hp0)
    have := hgen st.fields st.indexes hstart kl hkl p hp
    cases this with
    | inl h => exact h ▸ Finset.mem_insert_self idx st.universal
    | inr h => exact Finset.mem_insert_of_mem h

theorem foldl_addOne_inv {Obj : Type} (g : Nat × Obj → Nat) :
    ∀ (l : List (Nat × Obj)) (st : OLState Obj), OLInv st →
      OLInv (l.foldl (fun acc jo => addOne acc (g jo) jo.2) st) := by
  intro l
  induction l with
  | nil => intro st hInv; exact hInv
  | cons jo l ih =>
    intro st hInv
    simp only [List.foldl_cons]
    exact ih _ (addOne_inv hInv _ _)

theorem addObjects_inv {Obj : Type} (st : OLState Obj) (objs : List Obj)
    (idf : Option (Obj → Nat)) (hInv : OLInv st) :
    OLInv (addObjects st objs idf) := by
  cases idf with
  | none => exact foldl_addOne_inv (fun jo => st.universal.card + jo.1) objs.enum st hInv
  | some f => exact foldl_addOne_inv (fun jo => f jo.2) objs.enum st hInv

theorem olInit_inv {Obj : Type} (fields : List (FieldKey × (Obj → Option Value))) :
    OLInv (olInit fields) := by
  constructor
  · simp [olInit]
  · intro kl hkl p hp
    simp only [olInit, List.mem_map] at hkl
    obtain ⟨q, _, heq⟩ := hkl
    rw [← heq] at hp
    cases hp

theorem olGetIndex_entries {Obj : Type} {st : OLState Obj} {k : FieldKey}
    {m : List (Nat × Value)} (h : olGetIndex st k = .ok m) (hInv : OLInv st) :
    ∀ p ∈ m, p.1 ∈ st.universal := by
  intro p hp
  unfold olGetIndex at h
  cases hf : st.indexes.find? (fun q => q.1 == k) with
  | none => rw [hf] at h; cases h
  | some kl =>
    rw [hf] at h
    have hmem : kl ∈ st.indexes := List.mem_of_find?_eq_some hf
    have hm : kl.2 = m := congrArg (fun e => match e with | .ok x => x | .error _ => kl.2) h
    exact hInv.2 kl hmem p (by rw [hm]; exact hp)

theorem cmpApply_subset {Obj : Type} {st : OLState Obj} {k : FieldKey}
    {m : List (Nat × Value)} {rel : Value → Option Bool} {r : Finset Nat}
    (hidx : olGetIndex st k = .ok m) (hInv : OLInv st)
    (h : cmpApply rel m = .ok r) : r ⊆ st.universal := by
  intro idx hin
  obtain ⟨v, hv, _⟩ := (cmpApply_mem h idx).mp hin
  exact olGetIndex_entries hidx hInv (idx, v) hv

theorem olSearchString_subset {Obj : Type} {st : OLState Obj}
    (hInv : OLInv st) {term field : String} {r : Finset Nat}
    (h : olSearchString st term field = .ok r) : r ⊆ st.universal := by
  unfold olSearchString at h
  split at h
  · exact Except.noConfusion h
  · split at h
    · split at h
      · exact Except.noConfusion h
      · next m hix => exact cmpApply_subset hix hInv h
    · split at h
      · split at h
        · exact Except.noConfusion h
        · next m hix => exact cmpApply_subset hix hInv h
      · exact Except.noConfusion h

theorem olSearchNumber_subset {Obj : Type} {st : OLState Obj}
    (hInv : OLInv st) {comp term field : String} {r : Finset Nat}
    (h : olSearchNumber st comp term field = .ok r) : r ⊆ st.universal := by
  unfold olSearchNumber at h
  split at h
  · exact Except.noConfusion h
  · split at h
    · exact Except.noConfusion h
    · split at h
      · split at h
        · exact Except.noConfusion h
        · next m hix => exact cmpApply_subset hix hInv h
      · exact Except.noConfusion h

theorem foldl_inter_subset (a : Finset Nat) :
    ∀ (l : List (Finset Nat)), l.foldl (fun x y => x ∩ y) a ⊆ a := by
  intro l
  induction l generalizing a with
  | nil => exact fun x hx => hx
  | cons b bs ih =>
    simp only [List.foldl_cons]
    exact (ih (a ∩ b)).trans (Finset.inter_subset_left)

theorem foldl_union_subset {U : Finset Nat} :
    ∀ (l : List (Finset Nat)) (a : Finset Nat), a ⊆ U → (∀ b ∈ l, b ⊆ U) →
      l.foldl (fun x y => x ∪ y) a ⊆ U := by
  intro l
  induction l with
  | nil => intro a ha _; exact ha
  | cons b bs ih =>
    intro a ha hl
    simp only [List.foldl_cons]
    exact ih (a ∪ b) (Finset.union_subset ha (hl b (List.mem_cons_self b bs)))
      (fun c hc => hl c (List.mem_cons_of_mem b hc))

theorem evalNode_subset {Obj : Type} (st : OLState Obj) (hInv : OLInv st) :
    ∀ (n : QNode) (r : Finset Nat), evalNode st n = .ok r → r ⊆ st.universal := by
  suffices hN : ∀ (N : Nat) (n : QNode), sizeOf n ≤ N →
      ∀ r, evalNode st n = .ok r → r ⊆ st.universal by
    intro n r
    exact hN (sizeOf n) n le_rfl r
  intro N
  induction N with
  | zero =>
    intro n hn
    exfalso
    cases n <;> simp at hn
  | succ N ih =>
    have hlist : ∀ (ops : List QNode), sizeOf ops ≤ N + 1 →
        ∀ l, evalNodes st ops = .ok l → ∀ ri ∈ l, ri ⊆ st.universal := by
      intro ops
      induction ops with
      | nil =>
        intro _ l hl ri hri
        simp only [evalNodes, Except.ok.injEq] at hl
        rw [← hl] at hri
        cases hri
      | cons m ms ihm =>
        intro hsz l hl ri hri
        simp only [evalNodes] at hl
        cases hm : evalNode st m with
        | error e => rw [hm] at hl; cases hl
        | ok rm =>
          rw [hm] at hl
          cases hms : evalNodes st ms with
          | error e => rw [hms] at hl; cases hl
          | ok rms =>
            rw [hms] at hl
            simp only [Except.ok.injEq] at hl
            rw [← hl] at hri
            rcases List.mem_cons.mp hri with hri1 | hri2
            · subst hri1
              apply ih m ?_ ri hm
              simp only [List.cons.sizeOf_spec] at hsz
              omega
            · apply ihm ?_ rms hms ri hri2
              simp only [List.cons.sizeOf_spec] at hsz
              omega
    intro n hn r h
    cases n with
    | snot m =>
      simp only [evalNode] at h
      cases hm : evalNode st m with
      | error e => rw [hm] at h; cases h
      | ok rm =>
        rw [hm] at h
        simp only [Except.ok.injEq] at h
        rw [← h]
        exact Finset.sdiff_subset
    | sand ops =>
      simp only [evalNode] at h
      cases hops : evalNodes st ops with
      | error e => rw [hops] at h; cases h
      | ok l =>
        rw [hops] at h
        cases l with
        | nil => cases h
        | cons r0 rs =>
          simp only [Except.ok.injEq] at h
          rw [← h]
          have hops_sz : sizeOf ops ≤ N + 1 := by
            simp only [QNode.sand.sizeOf_spec] at hn
            omega
          have h0 : r0 ⊆ st.universal :=
            hlist ops hops_sz (r0 :: rs) hops r0 (List.mem_cons_self r0 rs)
          exact (foldl_inter_subset r0 rs).trans h0
    | sor ops =>
      simp only [evalNode] at h
      cases hops : evalNodes st ops with
      | error e => rw [hops] at h; cases h
      | ok l =>
        rw [hops] at h
        cases l with
        | nil => cases h
        | cons r0 rs =>
          simp only [Except.ok.injEq] at h
          rw [← h]
          have hops_sz : sizeOf ops ≤ N + 1 := by
            simp only [QNode.sor.sizeOf_spec] at hn
            omega
          exact foldl_union_subset rs r0
            (hlist ops hops_sz (r0 :: rs) hops r0 (List.mem_cons_self r0 rs))
            (fun b hb => hlist ops hops_sz (r0 :: rs) hops b
              (List.mem_cons_of_mem r0 hb))
    | sstr term field =>
      exact olSearchString_subset hInv h
    | snum comp term field =>
      exact olSearchNumber_subset hInv h
    | slist comp term field =>
      simp only [evalNode, olSearchList, Except.ok.injEq] at h
      rw [← h]
      exact Finset.empty_subset st.universal

/-- C10: after `__init__` and any sequence of `add_objects` calls, the
state invariant holds (universal set = keys of the data mapping, every
indexed identifier in the universal set), and every successful evaluation
of any query tree returns a set of identifiers inside the universal set on
which the `data[idx]` lookup of `ObjectListQuery.query` succeeds. -/
theorem olQuery_results_in_universal :
    (∀ (Obj : Type) (fields : List (FieldKey × (Obj → Option Value))),
      OLInv (olInit fields)) ∧
    (∀ (Obj : Type) (st : OLState Obj) (objs : List Obj)
      (idf : Option (Obj → Nat)), OLInv st → OLInv (addObjects st objs idf)) ∧
    (∀ (Obj : Type) (st : OLState Obj), OLInv st →
      ∀ (n : QNode) (r : Finset Nat), evalNode st n = .ok r →
        r ⊆ st.universal ∧ ∀ idx ∈ r, (olDataLookup st idx).isSome = true) := by
  refine ⟨fun Obj fields => olInit_inv fields,
    fun Obj st objs idf hInv => addObjects_inv st objs idf hInv,
    fun Obj st hInv n r h => ⟨evalNode_subset st hInv n r h, ?_⟩⟩
  intro idx hidx
  have hu : idx ∈ st.universal := evalNode_subset st hInv n r h hidx
  rw [hInv.1] at hu
  simp only [List.mem_toFinset, List.mem_map] at hu
  obtain ⟨p, hp, hfst⟩ := hu
  have hsome : (st.data.find? (fun q => q.1 == idx)).isSome = true := by
    rw [List.find?_isSome]
    exact ⟨p, hp, by simp [hfst]⟩
  simp only [olDataLookup, Option.isSome_map']
  exact hsome

/-- The concrete state used to witness the invariant theorem: an integer
field indexed over two objects added with automatic identifiers. -/
def c10State : OLState Int :=
  addObjects (olInit [(legsKey, fun (o : Int) => some (.vint o))]) [4, 8] none

/-- C10 witness: two objects added with automatic identifiers, a strict
numeric query returning identifier 1, which lies in the universal set and
has a data entry. -/
theorem olQuery_results_in_universal_witness :
    evalNode c10State (.snum ">" "5" "legs") = .ok ({1} : Finset Nat) ∧
    ({1} : Finset Nat) ⊆ c10State.universal ∧
    (olDataLookup c10State 1).isSome = true := by
  have hInv : OLInv c10State :=
    olQuery_results_in_universal.2.1 Int _ [4, 8] none
      (olQuery_results_in_universal.1 Int [(legsKey, fun (o : Int) => some (.vint o))])
  have hres := olQuery_results_in_universal.2.2 Int c10State hInv
    (.snum ">" "5" "legs") {1} (by decide)
  exact ⟨by decide, hres.1, hres.2 1 (by decide)⟩
